import Mathlib

/-!
Verification of the nesting core of the Check-App repository
(src/services/nestingService.ts) against its natural-language
specification.

Embedding conventions:
* JavaScript numbers are modelled as rationals (ℚ); all arithmetic in
  the nesting core is exact on the inputs exercised here.
* JavaScript strings are modelled as `List Char`.
* JavaScript number-to-string conversion (used only to build grouping
  keys) is modelled by the injective encoding `qRepr`; `parseQ` is the
  model of `parseFloat` on such encodings (leading-digit prefix parse,
  `none` plays the role of `NaN`).
* `Math.random()` is modelled by an explicit stream `rng : Nat → Nat`
  together with a draw counter; `rng ctr % (j+1)` stands for
  `Math.floor(Math.random() * (j+1))`, which lies in `[0, j]`.
* The `while` loop of the 1D packer is modelled with an explicit fuel
  argument that the top-level entry point instantiates with the size of
  the instance pool; every iteration of the source loop removes at
  least one instance from the pool (proved below), so the fuel is never
  exhausted on the reachable states and the model coincides with the
  source loop.
-/

namespace CheckApp

/-- Decimal digit character for a value below ten. -/
def digitChar (n : Nat) : Char := Char.ofNat (48 + n)

/-- Decimal digits of a natural number, with explicit fuel so that the
definition is structurally recursive and kernel-reducible. -/
def digitsFuel : Nat → Nat → List Char
  | 0, _ => []
  | f + 1, n => if n < 10 then [digitChar n] else digitsFuel f (n / 10) ++ [digitChar (n % 10)]

/-- Decimal digit string of a natural number. -/
def natDigits (n : Nat) : List Char := digitsFuel (n + 1) n

/-- Model of JavaScript number-to-string conversion on rationals: sign,
then the numerator digits, then (for non-integers) a separator and the
denominator digits.  Integers render exactly as JavaScript renders
them; non-integers get an injective encoding. -/
def qRepr (q : ℚ) : List Char :=
  (if q < 0 then ['-'] else []) ++ natDigits q.num.natAbs ++
    (if q.den = 1 then [] else '/' :: natDigits q.den)

/-- Decimal digit test. -/
def isDigitCh (c : Char) : Bool := decide ('0' ≤ c) && decide (c ≤ '9')

/-- Numeric value of a digit string. -/
def digitsToNat (l : List Char) : Nat := l.foldl (fun a c => a * 10 + (c.toNat - 48)) 0

/-- Model of `parseFloat` on the `qRepr` encoding: optional sign, a
non-empty digit prefix, an optional denominator part; anything else is
`none` (the model of `NaN`).  Like `parseFloat`, trailing garbage after
a valid prefix is ignored. -/
def parseQ (s : List Char) : Option ℚ :=
  let core := fun (s1 : List Char) (neg : Bool) =>
    let ds := s1.takeWhile isDigitCh
    if ds = [] then none
    else
      let n : ℚ := (digitsToNat ds : ℕ)
      let rest := s1.drop ds.length
      let v : ℚ :=
        match rest with
        | '/' :: r2 =>
          let ds2 := r2.takeWhile isDigitCh
          if ds2 = [] then n else n / ((digitsToNat ds2 : ℕ) : ℚ)
        | _ => n
      some (if neg then -v else v)
  match s with
  | '-' :: rest => core rest true
  | _ => core s false

/-- Model of `String.prototype.split` on the hyphen separator,
producing the hyphen-free segments (empty segments included, exactly as
in JavaScript). -/
def splitOnDash : List Char → List (List Char)
  | [] => [[]]
  | c :: rest =>
    match splitOnDash rest with
    | [] => [[]]
    | s :: ss => if c = '-' then [] :: s :: ss else (c :: s) :: ss

/-- Append an element to the bucket of its key, creating the bucket at
the end on first occurrence (JavaScript object-key insertion order). -/
def addToGroups {α : Type} (key : List Char) (p : α) :
    List (List Char × List α) → List (List Char × List α)
  | [] => [(key, [p])]
  | (k, ps) :: rest =>
    if k = key then (k, ps ++ [p]) :: rest else (k, ps) :: addToGroups key p rest

/-- Model of the `reduce`-based group-by used for both packers:
buckets keyed by string, in first-insertion order. -/
def groupByKey {α : Type} (keyFn : α → List Char) (l : List α) :
    List (List Char × List α) :=
  l.foldl (fun acc p => addToGroups (keyFn p) p acc) []

/-! ## Data model (src/unnamed/part_001: types) -/

inductive RotationOption
  | NONE
  | NINETY
  | FREE
  deriving DecidableEq

inductive OptimizationGoal
  | PRIORITIZE_SPEED
  | MINIMIZE_WASTE
  deriving DecidableEq

structure Material where
  name : List Char
  density : ℚ
  deriving DecidableEq

structure Sheet where
  id : List Char
  length : ℚ
  width : ℚ
  thickness : ℚ
  grade : List Char
  quantity : Nat
  isExpanded : Bool
  deriving DecidableEq

structure Part where
  id : ℚ
  name : List Char
  length : ℚ
  width : ℚ
  thickness : ℚ
  grade : List Char
  quantity : Nat
  originalId : ℚ
  deriving DecidableEq

structure PlacedPart extends Part where
  x : ℚ
  y : ℚ
  rotated : Bool
  deriving DecidableEq

structure SheetLayout where
  sheet : Sheet
  sheetIndex : Nat
  placedParts : List PlacedPart
  usedArea : ℚ
  wasteArea : ℚ
  wastePercentage : ℚ
  usedWeight : ℚ
  wasteWeight : ℚ
  deriving DecidableEq

structure SheetNestingResult where
  layouts : List SheetLayout
  unplacedParts : List Part
  totalSheetsUsed : List (List Char × Nat)
  totalUsedWeight : ℚ
  totalWasteWeight : ℚ
  totalWastePercentage : ℚ
  totalUsedArea : ℚ
  totalSheetArea : ℚ
  deriving DecidableEq

/-! ## 2D packer (nestingService.ts, lines 16-230) -/

/-- Horizontal extent of an already-placed part (`other.rotated ?
other.length : other.width`). -/
def placedWidth (p : PlacedPart) : ℚ := if p.rotated then p.length else p.width

/-- Vertical extent of an already-placed part. -/
def placedHeight (p : PlacedPart) : ℚ := if p.rotated then p.width else p.length

/-- The axis-aligned clearance-inflated overlap test from `canPlace`. -/
def overlapsB (px py pw ph : ℚ) (other : PlacedPart) (partToPartDist : ℚ) : Bool :=
  decide (px < other.x + placedWidth other + partToPartDist) &&
  decide (other.x < px + pw + partToPartDist) &&
  decide (py < other.y + placedHeight other + partToPartDist) &&
  decide (other.y < py + ph + partToPartDist)

/-- Model of `canPlace`: sheet-boundary checks with edge clearance,
then the overlap test against every already-placed part. -/
def canPlace (pw ph px py : ℚ) (sheet : Sheet) (placedParts : List PlacedPart)
    (partToPartDist partToSheetDist : ℚ) : Bool :=
  if px < partToSheetDist ∨ py < partToSheetDist then false
  else if px + pw > sheet.length - partToSheetDist then false
  else if py + ph > sheet.width - partToSheetDist then false
  else placedParts.all fun other => !(overlapsB px py pw ph other partToPartDist)

/-- A candidate placement as returned by `findBestPosition`. -/
structure PlacePos where
  x : ℚ
  y : ℚ
  rotated : Bool
  deriving DecidableEq

/-- Candidate anchor points: the clearance origin plus, for each placed
part in order, its right shelf corner then its top shelf corner. -/
def candidatePoints (partToPartDist partToSheetDist : ℚ) (placedParts : List PlacedPart) :
    List (ℚ × ℚ) :=
  (partToSheetDist, partToSheetDist) ::
    (placedParts.map fun p =>
      [(p.x + placedWidth p + partToPartDist, p.y), (p.x, p.y + placedHeight p + partToPartDist)]).flatten

/-- One step of the best-position scan: a feasible candidate replaces
the incumbent only when strictly better in the (y, x) lexicographic
order (`point.y < bestY || (point.y === bestY && point.x < bestX)`);
the empty incumbent (`bestY = Infinity`) always loses. -/
def updateBest (pw ph : ℚ) (rot : Bool) (sheet : Sheet) (placedParts : List PlacedPart)
    (partToPartDist partToSheetDist : ℚ) (st : Option PlacePos) (pt : ℚ × ℚ) :
    Option PlacePos :=
  if canPlace pw ph pt.1 pt.2 sheet placedParts partToPartDist partToSheetDist then
    match st with
    | none => some ⟨pt.1, pt.2, rot⟩
    | some b => if pt.2 < b.y ∨ (pt.2 = b.y ∧ pt.1 < b.x) then some ⟨pt.1, pt.2, rot⟩ else some b
  else st

/-- Model of the inner `tryPlacing` closure: scan all candidate points
for one orientation, threading the shared best candidate. -/
def tryPlacing (pw ph : ℚ) (rot : Bool) (sheet : Sheet) (placedParts : List PlacedPart)
    (partToPartDist partToSheetDist : ℚ) (st : Option PlacePos) : Option PlacePos :=
  (candidatePoints partToPartDist partToSheetDist placedParts).foldl
    (updateBest pw ph rot sheet placedParts partToPartDist partToSheetDist) st

/-- Model of `findBestPosition`: the unrotated orientation is scanned
first, the rotated one only when rotation is allowed. -/
def findBestPosition (part : Part) (sheet : Sheet) (placedParts : List PlacedPart)
    (partToPartDist partToSheetDist : ℚ) (rotation : RotationOption) : Option PlacePos :=
  let st := tryPlacing part.width part.length false sheet placedParts partToPartDist partToSheetDist none
  if rotation ≠ RotationOption.NONE then
    tryPlacing part.length part.width true sheet placedParts partToPartDist partToSheetDist st
  else st

/-- One step of the per-sheet placement pass: the part is committed at
its best position against the parts already on the sheet, or deferred
to the remaining list. -/
def placeStep (sheet : Sheet) (partToPartDist partToSheetDist : ℚ)
    (rotation : RotationOption) (acc : List PlacedPart × List Part) (part : Part) :
    List PlacedPart × List Part :=
  match findBestPosition part sheet acc.1 partToPartDist partToSheetDist rotation with
  | some pos => (acc.1 ++ [{ part with x := pos.x, y := pos.y, rotated := pos.rotated }], acc.2)
  | none => (acc.1, acc.2 ++ [part])

/-- Model of the per-sheet placement pass (lines 159-167): each pooled
part is either committed at its best position or deferred. -/
def placePass (pool : List Part) (sheet : Sheet) (partToPartDist partToSheetDist : ℚ)
    (rotation : RotationOption) : List PlacedPart × List Part :=
  pool.foldl (placeStep sheet partToPartDist partToSheetDist rotation) ([], [])

/-- Layout metrics (lines 178-186). -/
def mkSheetLayout (sheetDef : Sheet) (index : Nat) (placed : List PlacedPart)
    (material : Material) : SheetLayout :=
  let sheetArea := sheetDef.length * sheetDef.width
  let usedArea := placed.foldl (fun a p => a + p.length * p.width) 0
  let wasteArea := sheetArea - usedArea
  let volumeToWeight := fun (area : ℚ) => area / 1000000 * sheetDef.thickness * material.density / 1000
  { sheet := sheetDef
    sheetIndex := index
    placedParts := placed
    usedArea := usedArea
    wasteArea := wasteArea
    wastePercentage := if sheetArea > 0 then wasteArea / sheetArea * 100 else 0
    usedWeight := volumeToWeight usedArea
    wasteWeight := volumeToWeight wasteArea }

/-- First-fit-decreasing order on the 2D pool: stable sort by area
descending (`(a, b) => b.length * b.width - a.length * a.width`). -/
def sortByAreaDesc (l : List Part) : List Part :=
  l.insertionSort fun a b => b.length * b.width < a.length * a.width

/-- Instance expansion (line 135): one unit instance per quantity, the
synthetic id `p.id * 1000 + i`, quantity reset to one. -/
def expandPartInstances (l : List Part) : List Part :=
  (l.map fun p =>
    (List.range p.quantity).map fun i => { p with id := p.id * 1000 + (i : ℚ), quantity := 1 }).flatten

/-- Model of the `while` loop over one sheet definition (lines
144-191): fuel is the remaining supply of this definition; a layout on
which nothing could be placed is abandoned and the loop stops. -/
def fillWithDef (sheetDef : Sheet) (partToPartDist partToSheetDist : ℚ)
    (rotation : RotationOption) (material : Material) :
    Nat → List Part → Nat → List SheetLayout × List Part
  | 0, pool, _ => ([], pool)
  | fuel + 1, pool, layoutCount =>
    if pool = [] then ([], pool)
    else
      let pr := placePass pool sheetDef partToPartDist partToSheetDist rotation
      if pr.1 = [] then ([], pool)
      else
        let layout := mkSheetLayout sheetDef (layoutCount + 1) pr.1 material
        let rest := fillWithDef sheetDef partToPartDist partToSheetDist rotation material fuel
          (sortByAreaDesc pr.2) (layoutCount + 1)
        (layout :: rest.1, rest.2)

/-- Model of the loop over the sheet definitions of one group (lines
138-192). -/
def fillDefs (partToPartDist partToSheetDist : ℚ) (rotation : RotationOption)
    (material : Material) : List Sheet → List Part → Nat → List SheetLayout × List Part
  | [], pool, _ => ([], pool)
  | d :: ds, pool, layoutCount =>
    if pool = [] then ([], pool)
    else
      let r1 := fillWithDef d partToPartDist partToSheetDist rotation material d.quantity pool layoutCount
      let r2 := fillDefs partToPartDist partToSheetDist rotation material ds r1.2
        (layoutCount + r1.1.length)
      (r1.1 ++ r2.1, r2.2)

/-- Grouping key of a 2D part (line 115). -/
def partKey (p : Part) : List Char := p.grade ++ '-' :: qRepr p.thickness

/-- Sheet definitions matching a group key (lines 124-127): the key is
split on hyphens, the first segment is the grade, the second is parsed
as the thickness (`none`, the model of `NaN`, matches no sheet). -/
def sheetDefsForGroup (availableSheets : List Sheet) (key : List Char) : List Sheet :=
  let segs := splitOnDash key
  let grade := segs.headD []
  let thicknessVal := parseQ ((segs.drop 1).headD [])
  availableSheets.filter fun s => decide (s.grade = grade) && decide (some s.thickness = thicknessVal)

/-- Usage-count key of a sheet definition (line 189). -/
def sheetKeyOf (s : Sheet) : List Char :=
  qRepr s.length ++ 'x' :: qRepr s.width ++ 'x' :: qRepr s.thickness ++ '-' :: s.grade

/-- Increment the counter of a key, appending it on first use. -/
def bumpCount (key : List Char) : List (List Char × Nat) → List (List Char × Nat)
  | [] => [(key, 1)]
  | (k, n) :: rest => if k = key then (k, n + 1) :: rest else (k, n) :: bumpCount key rest

/-- Increment by one the quantity of the first entry with the given
`originalId` (the mutation `existing.quantity++`). -/
def bumpQuantityByOriginalId (oid : ℚ) : List Part → List Part
  | [] => []
  | p :: ps =>
    if p.originalId = oid then { p with quantity := p.quantity + 1 } :: ps
    else p :: bumpQuantityByOriginalId oid ps

/-- Model of the unplaced-part consolidation of the 2D packer (lines
199-211): entries are merged by `originalId`; a fresh entry always
starts with quantity one and each further row adds one, regardless of
the row quantity. -/
def consolidateSheetStep (acc : List Part) (part : Part) : List Part :=
  if acc.any fun q => decide (q.originalId = part.originalId) then
    bumpQuantityByOriginalId part.originalId acc
  else acc ++ [{ part with quantity := 1 }]

def consolidateSheetUnplaced (l : List Part) : List Part :=
  l.foldl consolidateSheetStep []

/-- Processing of one (grade, thickness) group (lines 123-197): groups
with no matching sheet definition go wholesale to the unplaced list;
otherwise the expanded, area-sorted pool is packed over the matching
definitions and the leftover pool is appended to the unplaced list. -/
def sheetGroupStep (availableSheets : List Sheet) (partToPartDist partToSheetDist : ℚ)
    (rotation : RotationOption) (material : Material)
    (acc : List SheetLayout × List Part) (g : List Char × List Part) :
    List SheetLayout × List Part :=
  let defs := sheetDefsForGroup availableSheets g.1
  if defs = [] then (acc.1, acc.2 ++ g.2)
  else
    let pool := sortByAreaDesc (expandPartInstances g.2)
    let r := fillDefs partToPartDist partToSheetDist rotation material defs pool acc.1.length
    (acc.1 ++ r.1, acc.2 ++ r.2)

/-- Model of `performSheetNesting` (lines 100-230). -/
def performSheetNesting (availableSheets : List Sheet) (parts : List Part)
    (partToPartDist partToSheetDist : ℚ) (rotation : RotationOption)
    (material : Material) : SheetNestingResult :=
  let groups := groupByKey partKey parts
  let res := groups.foldl
    (sheetGroupStep availableSheets partToPartDist partToSheetDist rotation material) ([], [])
  let layouts := res.1
  let totalSheetArea := layouts.foldl (fun a l => a + l.sheet.length * l.sheet.width) 0
  let totalUsedArea := layouts.foldl (fun a l => a + l.usedArea) 0
  { layouts := layouts
    unplacedParts := consolidateSheetUnplaced res.2
    totalSheetsUsed := layouts.foldl (fun acc l => bumpCount (sheetKeyOf l.sheet) acc) []
    totalUsedWeight := layouts.foldl (fun a l => a + l.usedWeight) 0
    totalWasteWeight := layouts.foldl (fun a l => a + l.wasteWeight) 0
    totalWastePercentage :=
      if totalSheetArea > 0 then (totalSheetArea - totalUsedArea) / totalSheetArea * 100 else 0
    totalUsedArea := totalUsedArea
    totalSheetArea := totalSheetArea }

/-! ## 1D packer (nestingService.ts, lines 232-379) -/

structure LinearPart where
  id : ℚ
  length : ℚ
  quantity : Nat
  effectiveLength : ℚ
  rawMaterial : List Char
  deriving DecidableEq

instance : Inhabited LinearPart := ⟨⟨0, 0, 0, 0, []⟩⟩

structure CutPart where
  id : ℚ
  length : ℚ
  effectiveLength : ℚ
  instanceId : List Char
  rawMaterial : List Char
  deriving DecidableEq

structure StockLayout where
  stockIndex : Nat
  stockLength : ℚ
  cuts : List CutPart
  usedLength : ℚ
  wasteLength : ℚ
  wastePercentage : ℚ
  rawMaterial : List Char
  deriving DecidableEq

structure LinearNestingResult where
  layouts : List StockLayout
  unplacedParts : List LinearPart
  totalStockUsed : Nat
  totalWaste : ℚ
  totalWastePercentage : ℚ
  deriving DecidableEq

/-- The ambient pseudo-random source: the value of the i-th call of
`Math.random`, scaled; `rng ctr % (j + 1)` models
`Math.floor(Math.random() * (j + 1))`. -/
abbrev RandSrc : Type := Nat → Nat

/-- Cut instances of one linear part (lines 265-273): one per unit of
quantity, tagged with the instance id string built from the part id and
the running index. -/
def instancesOf (p : LinearPart) : List CutPart :=
  (List.range p.quantity).map fun i =>
    { id := p.id
      length := p.length
      effectiveLength := p.effectiveLength
      instanceId := qRepr p.id ++ '-' :: natDigits i
      rawMaterial := p.rawMaterial }

/-- Immediate rejection and instance expansion for one group (lines
261-275): a part longer than the usable stock length is unplaced
outright, the others expand into cut instances. -/
def rejectStep (usableStockLength : ℚ) (acc : List LinearPart × List CutPart)
    (p : LinearPart) : List LinearPart × List CutPart :=
  if p.effectiveLength > usableStockLength then (acc.1 ++ [p], acc.2)
  else (acc.1, acc.2 ++ instancesOf p)

def rejectAndExpand (usableStockLength : ℚ) (partsInGroup : List LinearPart) :
    List LinearPart × List CutPart :=
  partsInGroup.foldl (rejectStep usableStockLength) ([], [])

/-- Stable sort by effective length descending (line 280). -/
def sortEffDesc (l : List CutPart) : List CutPart :=
  l.insertionSort fun a b => b.effectiveLength < a.effectiveLength

/-- The greedy accumulation shared by the baseline and every trial
(lines 283-288 and 304-309): scan the list, keep each cut while the
running total stays within the usable length. -/
def greedyStep (usableStockLength : ℚ) (acc : List CutPart × ℚ) (part : CutPart) :
    List CutPart × ℚ :=
  if acc.2 + part.effectiveLength ≤ usableStockLength then
    (acc.1 ++ [part], acc.2 + part.effectiveLength)
  else acc

def greedyAccum (usableStockLength : ℚ) (l : List CutPart) : List CutPart × ℚ :=
  l.foldl (greedyStep usableStockLength) ([], 0)

/-- Exchange the entries at two positions of the list (the in-place
array swap of the shuffle); out-of-range positions leave the list
unchanged (never hit by the shuffle). -/
def swapAt (l : List CutPart) (i j : Nat) : List CutPart :=
  match l[i]?, l[j]? with
  | some a, some b => (l.set i b).set j a
  | _, _ => l

/-- The Fisher-Yates shuffle loop (lines 297-300): positions from
the end of the list down to one, each swapped with a drawn position at
or below it; the draw counter advances once per step. -/
def shuffleGo (rng : RandSrc) : Nat → List CutPart → Nat → List CutPart × Nat
  | 0, l, ctr => (l, ctr)
  | j + 1, l, ctr => shuffleGo rng j (swapAt l (j + 1) (rng ctr % (j + 2))) (ctr + 1)

/-- One unbiased in-place shuffle of the working list. -/
def shuffleList (rng : RandSrc) (l : List CutPart) (ctr : Nat) : List CutPart × Nat :=
  shuffleGo rng (l.length - 1) l ctr

/-- The randomized trials (lines 296-316): each trial shuffles the
persistent working list, re-runs the greedy accumulation, and replaces
the incumbent only on strictly smaller waste. -/
def runTrials (usableStockLength : ℚ) (rng : RandSrc) :
    Nat → List CutPart → Nat → List CutPart × ℚ → (List CutPart × ℚ) × List CutPart × Nat
  | 0, temp, ctr, best => (best, temp, ctr)
  | i + 1, temp, ctr, best =>
    let sh := shuffleList rng temp ctr
    let g := greedyAccum usableStockLength sh.1
    let currentWaste := usableStockLength - g.2
    let best2 := if currentWaste < best.2 then (g.1, currentWaste) else best
    runTrials usableStockLength rng i sh.1 sh.2 best2

/-- The fixed trial count of the randomized search (line 293).  Kept
irreducible so that symbolic reasoning does not unfold the fifty
iterations; evaluation at concrete inputs unfolds it explicitly. -/
@[irreducible] def SHUFFLE_ITERATIONS : Nat := 50

/-- Selection of the cut set for one bar (lines 278-317): the
first-fit-decreasing baseline, then, in waste-minimization mode with
more than one instance remaining, fifty randomized trials. -/
def selectBestCutsForBar (usableStockLength : ℚ) (optimizationGoal : OptimizationGoal)
    (pool : List CutPart) (rng : RandSrc) (ctr : Nat) : (List CutPart × ℚ) × Nat :=
  let g := greedyAccum usableStockLength (sortEffDesc pool)
  let best := (g.1, usableStockLength - g.2)
  if optimizationGoal = OptimizationGoal.MINIMIZE_WASTE ∧ pool.length > 1 then
    let r := runTrials usableStockLength rng SHUFFLE_ITERATIONS pool ctr best
    (r.1, r.2.2)
  else (best, ctr)

/-- Sum of the effective lengths of a cut list, in the accumulation
order of `reduce((sum, c) => sum + c.effectiveLength, 0)`. -/
def sumEff (l : List CutPart) : ℚ := l.foldl (fun s c => s + c.effectiveLength) 0

/-- Increment the instance count of the first entry with the given id
(the mutation of the `unplacedMap` entry). -/
def bumpUnplacedEntry (pid : ℚ) : List (ℚ × LinearPart × Nat) → List (ℚ × LinearPart × Nat)
  | [] => []
  | e :: es => if e.1 = pid then (e.1, e.2.1, e.2.2 + 1) :: es else e :: bumpUnplacedEntry pid es

/-- The empty-best-bar fallback (lines 319-331): every remaining
instance is counted back against its originating part, in first-seen
order, and reported unplaced with the counted quantity. -/
def emptyBarUnplaced (partsInGroup : List LinearPart) (pool : List CutPart) : List LinearPart :=
  let m := pool.foldl
    (fun (acc : List (ℚ × LinearPart × Nat)) rcp =>
      let original := (partsInGroup.find? fun p => decide (p.id = rcp.id)).getD default
      if acc.any fun e => decide (e.1 = original.id) then bumpUnplacedEntry original.id acc
      else acc ++ [(original.id, original, 1)])
    []
  m.map fun e => { e.2.1 with quantity := e.2.2 }

/-- State returned by the bar-filling loop. -/
structure PackState where
  layouts : List StockLayout
  unplaced : List LinearPart
  ctr : Nat
  nextIndex : Nat
  deriving DecidableEq

/-- Model of the bar-filling `while` loop (lines 277-346).  The fuel
argument is instantiated with the pool size by the caller; every
iteration of the source loop removes at least one instance from the
pool (proved below), so the fuel never runs out on reachable states. -/
def packBars (usableStockLength stockLength : ℚ) (optimizationGoal : OptimizationGoal)
    (rawMaterial : List Char) (partsInGroup : List LinearPart) (rng : RandSrc) :
    Nat → List CutPart → Nat → Nat → PackState
  | 0, _, ctr, idx => ⟨[], [], ctr, idx⟩
  | fuel + 1, pool, ctr, idx =>
    if pool = [] then ⟨[], [], ctr, idx⟩
    else
      let sel := selectBestCutsForBar usableStockLength optimizationGoal pool rng ctr
      let bestCuts := sel.1.1
      if bestCuts = [] then ⟨[], emptyBarUnplaced partsInGroup pool, sel.2, idx⟩
      else
        let newLayout : StockLayout :=
          { stockIndex := idx
            stockLength := stockLength
            cuts := bestCuts
            usedLength := sumEff bestCuts
            wasteLength := 0
            wastePercentage := 0
            rawMaterial := rawMaterial }
        let placedIds := bestCuts.map fun c => c.instanceId
        let pool2 := pool.filter fun p => !(decide (p.instanceId ∈ placedIds))
        let r := packBars usableStockLength stockLength optimizationGoal rawMaterial partsInGroup
          rng fuel pool2 sel.2 (idx + 1)
        ⟨newLayout :: r.layouts, r.unplaced, r.ctr, r.nextIndex⟩

/-- Increment the quantity of the first entry with the given id (the
mutation `existing.quantity += part.quantity`). -/
def bumpLinearQuantity (pid : ℚ) (q : Nat) : List LinearPart → List LinearPart
  | [] => []
  | p :: ps =>
    if p.id = pid then { p with quantity := p.quantity + q } :: ps
    else p :: bumpLinearQuantity pid q ps

/-- Model of the unplaced-part consolidation of the 1D packer (lines
362-370): entries merged by id, quantities summed. -/
def consolidateLinearStep (acc : List LinearPart) (part : LinearPart) : List LinearPart :=
  if acc.any fun q => decide (q.id = part.id) then bumpLinearQuantity part.id part.quantity acc
  else acc ++ [part]

def consolidateLinearUnplaced (l : List LinearPart) : List LinearPart :=
  l.foldl consolidateLinearStep []

/-- Processing of one raw-material group (lines 255-348): rejection and
expansion, then the bar-filling loop, threading the global draw counter
and global layout index, and appending the group's unplaced parts. -/
def linearGroupStep (usableStockLength stockLength : ℚ)
    (optimizationGoal : OptimizationGoal) (rng : RandSrc)
    (acc : List StockLayout × List LinearPart × Nat × Nat) (g : List Char × List LinearPart) :
    List StockLayout × List LinearPart × Nat × Nat :=
  let re := rejectAndExpand usableStockLength g.2
  let pk := packBars usableStockLength stockLength optimizationGoal g.1 g.2 rng
    re.2.length re.2 acc.2.2.1 acc.2.2.2
  (acc.1 ++ pk.layouts, acc.2.1 ++ (re.1 ++ pk.unplaced), pk.ctr, pk.nextIndex)

/-- Model of `performLinearNesting` (lines 232-379). -/
def performLinearNesting (stockLength : ℚ) (parts : List LinearPart)
    (optimizationGoal : OptimizationGoal) (leftEndAllowance rightEndAllowance : ℚ)
    (rng : RandSrc) : LinearNestingResult :=
  let usableStockLength := stockLength - leftEndAllowance - rightEndAllowance
  let groups := groupByKey (fun p => p.rawMaterial) parts
  let res := groups.foldl
    (linearGroupStep usableStockLength stockLength optimizationGoal rng) ([], [], 0, 1)
  let layouts := res.1.map fun l =>
    { l with
      wasteLength := l.stockLength - l.usedLength
      wastePercentage :=
        if l.stockLength > 0 then (l.stockLength - l.usedLength) / l.stockLength * 100 else 0 }
  let totalWaste := layouts.foldl (fun a l => a + l.wasteLength) 0
  let totalStockLength := (layouts.length : ℚ) * stockLength
  { layouts := layouts
    unplacedParts := consolidateLinearUnplaced res.2.1
    totalStockUsed := layouts.length
    totalWaste := totalWaste
    totalWastePercentage :=
      if totalStockLength > 0 then totalWaste / totalStockLength * 100 else 0 }

/-! ## Derived notions used by the statements -/

/-- Horizontal extent a part occupies in a given orientation, exactly
as `findBestPosition` passes it to `canPlace`. -/
def orientW (part : Part) (rotated : Bool) : ℚ := if rotated then part.length else part.width

/-- Vertical extent a part occupies in a given orientation. -/
def orientH (part : Part) (rotated : Bool) : ℚ := if rotated then part.width else part.length

/-- Two placed parts have disjoint clearance-inflated bounding boxes
(the rotated extents are used where `rotated = true`): the axis-aligned
overlap test with the clearance gap fails. -/
def noOverlap (partToPartDist : ℚ) (a b : PlacedPart) : Prop :=
  ¬ (a.x < b.x + placedWidth b + partToPartDist ∧
     b.x < a.x + placedWidth a + partToPartDist ∧
     a.y < b.y + placedHeight b + partToPartDist ∧
     b.y < a.y + placedHeight a + partToPartDist)

/-- Strict bottom-left order on candidate points (stored as (x, y)):
smaller y first, ties broken by smaller x — the replacement condition
of the best-position scan. -/
def posLtLex (p q : ℚ × ℚ) : Prop := p.2 < q.2 ∨ (p.2 = q.2 ∧ p.1 < q.1)

/-- The first-fit-decreasing baseline for a pool: greedy accumulation
over the pool sorted by effective length descending. -/
def ffdBaseline (usableStockLength : ℚ) (pool : List CutPart) : List CutPart × ℚ :=
  greedyAccum usableStockLength (sortEffDesc pool)

/-- Waste of the first-fit-decreasing baseline on a pool. -/
def ffdWaste (usableStockLength : ℚ) (pool : List CutPart) : ℚ :=
  usableStockLength - (ffdBaseline usableStockLength pool).2

/-- Total requested quantity carried by a given part id in a list of
linear parts. -/
def sumQtyById (i : ℚ) (l : List LinearPart) : Nat :=
  (l.map fun p => if p.id = i then p.quantity else 0).sum

/-- Well-formedness of a candidate (cuts, waste) pair for one bar: the
recorded waste is the usable length minus the total effective length of
the cuts, and a non-empty cut set fits within the usable length. -/
def barCandidateOk (usableStockLength : ℚ) (b : List CutPart × ℚ) : Prop :=
  b.2 = usableStockLength - sumEff b.1 ∧
    (b.1 ≠ [] → sumEff b.1 ≤ usableStockLength)

/-! ## Concrete inputs used by the closed theorems and witnesses -/

/-- The MS material of the constants table (density 7850). -/
def matMS : Material := ⟨['M', 'S'], 7850⟩

/-- The all-zero pseudo-random stream. -/
def rngZero : RandSrc := fun _ => 0

/-- Scenario input for C2: a sheet of length 300 and width 500. -/
def sheetB : Sheet :=
  { id := ['s'], length := 300, width := 500, thickness := 2, grade := ['A'], quantity := 1,
    isExpanded := false }

/-- Scenario input for C2: a part of length 450 and width 100. -/
def partB : Part :=
  { id := 1, name := ['p'], length := 450, width := 100, thickness := 2, grade := ['A'],
    quantity := 1, originalId := 1 }

/-- Failing input for the conservation claim: a part with quantity two
in a group with no matching sheet definition. -/
def partQ2 : Part :=
  { id := 1, name := ['p'], length := 10, width := 10, thickness := 2, grade := ['A'],
    quantity := 2, originalId := 1 }

/-- Witness input for C9: a sheet of grade A and thickness 5. -/
def sheetA5 : Sheet :=
  { id := ['s'], length := 300, width := 300, thickness := 5, grade := ['A'], quantity := 1,
    isExpanded := false }

/-- Witness input for C9: a part whose grade contains a hyphen; its
group key A-5-3 is parsed back as grade A with thickness 5. -/
def partHyphen : Part :=
  { id := 1, name := ['p'], length := 10, width := 10, thickness := 3, grade := ['A', '-', '5'],
    quantity := 1, originalId := 1 }

/-- A linear part of the given id, length and quantity with zero kerf
on raw material M. -/
def mkLinearPart (i len : ℚ) (q : Nat) : LinearPart :=
  { id := i, length := len, quantity := q, effectiveLength := len, rawMaterial := ['M'] }

/-- Witness input for C7: a square sheet. -/
def sheetSq : Sheet :=
  { id := ['s'], length := 100, width := 100, thickness := 2, grade := ['A'], quantity := 1,
    isExpanded := false }

/-- Witness input for C7: a square part, for which the rotated and the
unrotated orientation are feasible at the same minimal point. -/
def partSq : Part :=
  { id := 1, name := ['p'], length := 10, width := 10, thickness := 2, grade := ['A'],
    quantity := 1, originalId := 1 }

/-- Witness input for C4: the square part requested twice, so one
layout carries two placed parts. -/
def partSqPair : Part := { partSq with quantity := 2 }

/-! # Theorems -/

set_option maxRecDepth 1000000

/-- C1: the conservation invariant fails on the code.  For the input
with no available sheets and a single part of quantity two, the whole
group is unplaced, but the consolidation counts unplaced rows rather
than quantities: the result reports the part with quantity one while
the requested quantity is two, so placed (0) + unplaced (1) is not the
requested quantity (2).  This theorem evaluates the model at that
failing input. -/
theorem sheet_conservation_fails_on_unmatched_group :
    (performSheetNesting [] [partQ2] 0 0 RotationOption.NONE matMS).layouts = [] ∧
    ((performSheetNesting [] [partQ2] 0 0 RotationOption.NONE matMS).unplacedParts.map
      fun p => p.quantity) = [1] ∧
    partQ2.quantity = 2 := by
  with_unfolding_all decide

/-- C2, counterexample: on the sheet of length 300 and width 500 with
the part of length 450 and width 100, quantity one, zero clearances and
rotation enabled, the part is placed but with `rotated = false` — the
unrotated orientation maps the part width (100) onto the sheet-length
axis (300) and fits, so no placed part has `rotated = true`, contrary
to the claim. -/
theorem scenarioB_rotated_true_counterexample :
    ((performSheetNesting [sheetB] [partB] 0 0 RotationOption.NINETY matMS).layouts.map
      fun l => l.placedParts.map fun pp => pp.rotated) = [[false]] ∧
    ¬ (∃ l ∈ (performSheetNesting [sheetB] [partB] 0 0 RotationOption.NINETY matMS).layouts,
        ∃ pp ∈ l.placedParts, pp.rotated = true) := by
  with_unfolding_all decide

/-- C2, amended: on that input the part is placed (not unplaced) at the
origin with `rotated = false`; only the unrotated orientation fits (the
rotated footprint puts the part length 450 on the sheet-length axis 300
and fails `canPlace`, the unrotated footprint passes it). -/
theorem scenarioB_placed_unrotated :
    (performSheetNesting [sheetB] [partB] 0 0 RotationOption.NINETY matMS).unplacedParts = [] ∧
    ((performSheetNesting [sheetB] [partB] 0 0 RotationOption.NINETY matMS).layouts.map
      fun l => l.placedParts.map fun pp => (pp.x, pp.y, pp.rotated)) = [[(0, 0, false)]] ∧
    canPlace (orientW partB false) (orientH partB false) 0 0 sheetB [] 0 0 = true ∧
    canPlace (orientW partB true) (orientH partB true) 0 0 sheetB [] 0 0 = false := by
  with_unfolding_all decide

/-! ## Lemmas about the best-position scan -/

theorem updateBest_cases (pw ph : ℚ) (rot : Bool) (sheet : Sheet) (placed : List PlacedPart)
    (g1 g2 : ℚ) (st : Option PlacePos) (pt : ℚ × ℚ) :
    updateBest pw ph rot sheet placed g1 g2 st pt = st ∨
      (canPlace pw ph pt.1 pt.2 sheet placed g1 g2 = true ∧
        updateBest pw ph rot sheet placed g1 g2 st pt = some ⟨pt.1, pt.2, rot⟩) := by
  unfold updateBest
  by_cases h : canPlace pw ph pt.1 pt.2 sheet placed g1 g2 = true
  · cases st with
    | none => exact Or.inr ⟨h, by simp [h]⟩
    | some b =>
      by_cases h2 : pt.2 < b.y ∨ (pt.2 = b.y ∧ pt.1 < b.x)
      · exact Or.inr ⟨h, by simp [h, h2]⟩
      · exact Or.inl (by simp [h, h2])
  · exact Or.inl (by simp [h])

theorem foldl_updateBest_source (pw ph : ℚ) (rot : Bool) (sheet : Sheet)
    (placed : List PlacedPart) (g1 g2 : ℚ) :
    ∀ (pts : List (ℚ × ℚ)) (st : Option PlacePos),
      pts.foldl (updateBest pw ph rot sheet placed g1 g2) st = st ∨
        ∃ pt ∈ pts, canPlace pw ph pt.1 pt.2 sheet placed g1 g2 = true ∧
          pts.foldl (updateBest pw ph rot sheet placed g1 g2) st = some ⟨pt.1, pt.2, rot⟩ := by
  intro pts
  induction pts with
  | nil => intro st; exact Or.inl rfl
  | cons p rest ih =>
    intro st
    have hstep := updateBest_cases pw ph rot sheet placed g1 g2 st p
    rcases ih (updateBest pw ph rot sheet placed g1 g2 st p) with h | ⟨pt, hmem, hcan, heq⟩
    · rcases hstep with h1 | ⟨hcan, h1⟩
      · exact Or.inl (by simpa [List.foldl_cons, h1] using h)
      · exact Or.inr ⟨p, List.mem_cons_self _ _, hcan, by simpa [List.foldl_cons, h1] using h⟩
    · exact Or.inr ⟨pt, List.mem_cons_of_mem _ hmem, hcan, by simpa [List.foldl_cons] using heq⟩

theorem posLtLex_trans {a b c : ℚ × ℚ} (h1 : posLtLex a b) (h2 : posLtLex b c) : posLtLex a c := by
  unfold posLtLex at *
  rcases h1 with h1 | ⟨h1a, h1b⟩ <;> rcases h2 with h2 | ⟨h2a, h2b⟩
  · exact Or.inl (lt_trans h1 h2)
  · exact Or.inl (h2a ▸ h1)
  · exact Or.inl (h1a ▸ h2)
  · exact Or.inr ⟨h1a.trans h2a, lt_trans h1b h2b⟩

theorem posLtLex_irrefl (a : ℚ × ℚ) : ¬ posLtLex a a := by
  unfold posLtLex
  rintro (h | ⟨h1, h2⟩)
  · exact lt_irrefl _ h
  · exact lt_irrefl _ h2

theorem posLtLex_resolve {a b : ℚ × ℚ} (h : ¬ posLtLex a b) :
    posLtLex b a ∨ (a.1 = b.1 ∧ a.2 = b.2) := by
  unfold posLtLex at *
  rcases lt_trichotomy a.2 b.2 with h2 | h2 | h2
  · exact absurd (Or.inl h2) h
  · rcases lt_trichotomy a.1 b.1 with h1 | h1 | h1
    · exact absurd (Or.inr ⟨h2, h1⟩) h
    · exact Or.inr ⟨h1, h2⟩
    · exact Or.inl (Or.inr ⟨h2.symm, h1⟩)
  · exact Or.inl (Or.inl h2)

theorem updateBest_some_cases (pw ph : ℚ) (rot : Bool) (sheet : Sheet)
    (placed : List PlacedPart) (g1 g2 : ℚ) (c : PlacePos) (pt : ℚ × ℚ) :
    (canPlace pw ph pt.1 pt.2 sheet placed g1 g2 = false ∧
        updateBest pw ph rot sheet placed g1 g2 (some c) pt = some c) ∨
      (canPlace pw ph pt.1 pt.2 sheet placed g1 g2 = true ∧
        posLtLex (pt.1, pt.2) (c.x, c.y) ∧
        updateBest pw ph rot sheet placed g1 g2 (some c) pt = some ⟨pt.1, pt.2, rot⟩) ∨
      (canPlace pw ph pt.1 pt.2 sheet placed g1 g2 = true ∧
        ¬ posLtLex (pt.1, pt.2) (c.x, c.y) ∧
        updateBest pw ph rot sheet placed g1 g2 (some c) pt = some c) := by
  unfold updateBest
  by_cases h : canPlace pw ph pt.1 pt.2 sheet placed g1 g2 = true
  · by_cases h2 : pt.2 < c.y ∨ (pt.2 = c.y ∧ pt.1 < c.x)
    · exact Or.inr (Or.inl ⟨h, h2, by simp [h, h2]⟩)
    · exact Or.inr (Or.inr ⟨h, h2, by simp [h, h2]⟩)
  · exact Or.inl ⟨Bool.eq_false_iff.mpr h, by simp [h]⟩

theorem foldl_updateBest_isSome (pw ph : ℚ) (rot : Bool) (sheet : Sheet)
    (placed : List PlacedPart) (g1 g2 : ℚ) :
    ∀ (pts : List (ℚ × ℚ)) (c : PlacePos),
      ∃ b, pts.foldl (updateBest pw ph rot sheet placed g1 g2) (some c) = some b := by
  intro pts
  induction pts with
  | nil => intro c; exact ⟨c, rfl⟩
  | cons p rest ih =>
    intro c
    rcases updateBest_some_cases pw ph rot sheet placed g1 g2 c p with
      ⟨_, h⟩ | ⟨_, _, h⟩ | ⟨_, _, h⟩ <;>
      simpa [List.foldl_cons, h] using ih _

theorem foldl_updateBest_mono (pw ph : ℚ) (rot : Bool) (sheet : Sheet)
    (placed : List PlacedPart) (g1 g2 : ℚ) :
    ∀ (pts : List (ℚ × ℚ)) (c b : PlacePos),
      pts.foldl (updateBest pw ph rot sheet placed g1 g2) (some c) = some b →
      b = c ∨ posLtLex (b.x, b.y) (c.x, c.y) := by
  intro pts
  induction pts with
  | nil => intro c b h; exact Or.inl (Option.some_injective _ h).symm
  | cons p rest ih =>
    intro c b h
    rw [List.foldl_cons] at h
    rcases updateBest_some_cases pw ph rot sheet placed g1 g2 c p with
      ⟨_, hs⟩ | ⟨_, hlt, hs⟩ | ⟨_, _, hs⟩
    · exact ih c b (by rwa [hs] at h)
    · rcases ih _ b (by rwa [hs] at h) with h1 | h1
      · exact Or.inr (by rw [h1]; exact hlt)
      · exact Or.inr (posLtLex_trans h1 hlt)
    · exact ih c b (by rwa [hs] at h)

theorem foldl_updateBest_min (pw ph : ℚ) (rot : Bool) (sheet : Sheet)
    (placed : List PlacedPart) (g1 g2 : ℚ) :
    ∀ (pts : List (ℚ × ℚ)) (st : Option PlacePos) (b : PlacePos),
      pts.foldl (updateBest pw ph rot sheet placed g1 g2) st = some b →
      ∀ pt ∈ pts, canPlace pw ph pt.1 pt.2 sheet placed g1 g2 = true →
        ¬ posLtLex (pt.1, pt.2) (b.x, b.y) := by
  intro pts
  induction pts with
  | nil => intro st b _ pt hmem; exact absurd hmem (List.not_mem_nil pt)
  | cons p rest ih =>
    intro st b h pt hmem hcan
    rw [List.foldl_cons] at h
    rcases List.mem_cons.mp hmem with hpt | hpt
    · subst hpt
      cases st with
      | none =>
        have hstep : updateBest pw ph rot sheet placed g1 g2 none pt =
            some ⟨pt.1, pt.2, rot⟩ := by
          unfold updateBest; simp [hcan]
        rw [hstep] at h
        rcases foldl_updateBest_mono pw ph rot sheet placed g1 g2 rest _ b h with h1 | h1
        · rw [h1]; exact posLtLex_irrefl _
        · intro hlt
          exact posLtLex_irrefl _ (posLtLex_trans hlt h1)
      | some c =>
        rcases updateBest_some_cases pw ph rot sheet placed g1 g2 c pt with
          ⟨hf, hs⟩ | ⟨_, hlt, hs⟩ | ⟨_, hnlt, hs⟩
        · rw [hcan] at hf; exact absurd hf (by simp)
        · rw [hs] at h
          rcases foldl_updateBest_mono pw ph rot sheet placed g1 g2 rest _ b h with h1 | h1
          · rw [h1]; exact posLtLex_irrefl _
          · intro hlt2
            exact posLtLex_irrefl _ (posLtLex_trans hlt2 h1)
        · rw [hs] at h
          rcases foldl_updateBest_mono pw ph rot sheet placed g1 g2 rest _ b h with h1 | h1
          · rw [h1]; exact hnlt
          · intro hlt2
            exact hnlt (posLtLex_trans hlt2 h1)
    · exact ih _ b h pt hpt hcan

theorem foldl_updateBest_keep (pw ph : ℚ) (rot : Bool) (sheet : Sheet)
    (placed : List PlacedPart) (g1 g2 : ℚ) :
    ∀ (pts : List (ℚ × ℚ)) (c : PlacePos),
      (∀ pt ∈ pts, canPlace pw ph pt.1 pt.2 sheet placed g1 g2 = true →
        ¬ posLtLex (pt.1, pt.2) (c.x, c.y)) →
      pts.foldl (updateBest pw ph rot sheet placed g1 g2) (some c) = some c := by
  intro pts
  induction pts with
  | nil => intro c _; rfl
  | cons p rest ih =>
    intro c hmin
    rw [List.foldl_cons]
    rcases updateBest_some_cases pw ph rot sheet placed g1 g2 c p with
      ⟨_, hs⟩ | ⟨hcan, hlt, hs⟩ | ⟨_, _, hs⟩
    · rw [hs]; exact ih c fun pt hmem => hmin pt (List.mem_cons_of_mem _ hmem)
    · exact absurd hlt (hmin p (List.mem_cons_self _ _) hcan)
    · rw [hs]; exact ih c fun pt hmem => hmin pt (List.mem_cons_of_mem _ hmem)

theorem tryPlacing_eq_foldl (pw ph : ℚ) (rot : Bool) (sheet : Sheet)
    (placed : List PlacedPart) (g1 g2 : ℚ) (st : Option PlacePos) :
    tryPlacing pw ph rot sheet placed g1 g2 st =
      (candidatePoints g1 g2 placed).foldl (updateBest pw ph rot sheet placed g1 g2) st := rfl

theorem foldl_updateBest_some_of_feasible (pw ph : ℚ) (rot : Bool) (sheet : Sheet)
    (placed : List PlacedPart) (g1 g2 : ℚ) :
    ∀ (pts : List (ℚ × ℚ)) (st : Option PlacePos) (pt : ℚ × ℚ), pt ∈ pts →
      canPlace pw ph pt.1 pt.2 sheet placed g1 g2 = true →
      ∃ b, pts.foldl (updateBest pw ph rot sheet placed g1 g2) st = some b := by
  intro pts
  induction pts with
  | nil => intro st pt hmem; exact absurd hmem (List.not_mem_nil pt)
  | cons p rest ih =>
    intro st pt hmem hcan
    rw [List.foldl_cons]
    rcases List.mem_cons.mp hmem with hpt | hpt
    · subst hpt
      cases st with
      | none =>
        have hstep : updateBest pw ph rot sheet placed g1 g2 none pt =
            some ⟨pt.1, pt.2, rot⟩ := by unfold updateBest; simp [hcan]
        rw [hstep]
        exact foldl_updateBest_isSome pw ph rot sheet placed g1 g2 rest _
      | some c =>
        rcases updateBest_some_cases pw ph rot sheet placed g1 g2 c pt with
          ⟨_, hs⟩ | ⟨_, _, hs⟩ | ⟨_, _, hs⟩ <;>
          · rw [hs]; exact foldl_updateBest_isSome pw ph rot sheet placed g1 g2 rest _
    · cases hst : updateBest pw ph rot sheet placed g1 g2 st p with
      | none => exact ih _ pt hpt hcan
      | some c =>
        exact foldl_updateBest_isSome pw ph rot sheet placed g1 g2 rest _

/-- A position returned by `findBestPosition` is a candidate anchor
point at which `canPlace` succeeded for the orientation recorded in its
`rotated` flag. -/
theorem findBestPosition_feasible (part : Part) (sheet : Sheet) (placed : List PlacedPart)
    (g1 g2 : ℚ) (rotation : RotationOption) (p : PlacePos)
    (h : findBestPosition part sheet placed g1 g2 rotation = some p) :
    canPlace (orientW part p.rotated) (orientH part p.rotated) p.x p.y sheet placed g1 g2 = true ∧
      (p.x, p.y) ∈ candidatePoints g1 g2 placed := by
  unfold findBestPosition at h
  by_cases hrot : rotation ≠ RotationOption.NONE
  · rw [if_pos hrot, tryPlacing_eq_foldl] at h
    rcases foldl_updateBest_source part.length part.width true sheet placed g1 g2
      (candidatePoints g1 g2 placed) _ with h1 | ⟨pt, hmem, hcan, heq⟩
    · rw [h1, tryPlacing_eq_foldl] at h
      rcases foldl_updateBest_source part.width part.length false sheet placed g1 g2
        (candidatePoints g1 g2 placed) none with h2 | ⟨pt, hmem, hcan, heq⟩
      · rw [h2] at h; exact absurd h (by simp)
      · rw [heq] at h
        obtain rfl : (⟨pt.1, pt.2, false⟩ : PlacePos) = p := Option.some_injective _ h
        exact ⟨by simpa [orientW, orientH] using hcan, by simpa using hmem⟩
    · rw [heq] at h
      obtain rfl : (⟨pt.1, pt.2, true⟩ : PlacePos) = p := Option.some_injective _ h
      exact ⟨by simpa [orientW, orientH] using hcan, by simpa using hmem⟩
  · rw [if_neg hrot, tryPlacing_eq_foldl] at h
    rcases foldl_updateBest_source part.width part.length false sheet placed g1 g2
      (candidatePoints g1 g2 placed) none with h2 | ⟨pt, hmem, hcan, heq⟩
    · rw [h2] at h; exact absurd h (by simp)
    · rw [heq] at h
      obtain rfl : (⟨pt.1, pt.2, false⟩ : PlacePos) = p := Option.some_injective _ h
      exact ⟨by simpa [orientW, orientH] using hcan, by simpa using hmem⟩

/-- A position returned by `findBestPosition` is bottom-left minimal:
no candidate anchor point feasible in an admissible orientation is
strictly lower in the (y, x) lexicographic order. -/
theorem findBestPosition_min (part : Part) (sheet : Sheet) (placed : List PlacedPart)
    (g1 g2 : ℚ) (rotation : RotationOption) (p : PlacePos)
    (h : findBestPosition part sheet placed g1 g2 rotation = some p)
    (pt : ℚ × ℚ) (hmem : pt ∈ candidatePoints g1 g2 placed) (rb : Bool)
    (hadm : rb = true → rotation ≠ RotationOption.NONE)
    (hcan : canPlace (orientW part rb) (orientH part rb) pt.1 pt.2 sheet placed g1 g2 = true) :
    ¬ posLtLex (pt.1, pt.2) (p.x, p.y) := by
  unfold findBestPosition at h
  by_cases hrot : rotation ≠ RotationOption.NONE
  · rw [if_pos hrot, tryPlacing_eq_foldl, tryPlacing_eq_foldl] at h
    cases rb with
    | true =>
      exact foldl_updateBest_min part.length part.width true sheet placed g1 g2 _ _ p h pt hmem
        (by simpa [orientW, orientH] using hcan)
    | false =>
      obtain ⟨b1, hb1⟩ := foldl_updateBest_some_of_feasible part.width part.length false sheet
        placed g1 g2 (candidatePoints g1 g2 placed) none pt hmem
        (by simpa [orientW, orientH] using hcan)
      have hmin1 := foldl_updateBest_min part.width part.length false sheet placed g1 g2 _ _ b1
        hb1 pt hmem (by simpa [orientW, orientH] using hcan)
      rw [hb1] at h
      rcases foldl_updateBest_mono part.length part.width true sheet placed g1 g2 _ _ p h with
        h1 | h1
      · rw [h1]; exact hmin1
      · intro hlt
        exact hmin1 (posLtLex_trans hlt h1)
  · rw [if_neg hrot, tryPlacing_eq_foldl] at h
    cases rb with
    | true => exact absurd rfl (fun he => hrot (hadm he))
    | false =>
      exact foldl_updateBest_min part.width part.length false sheet placed g1 g2 _ _ p h pt hmem
        (by simpa [orientW, orientH] using hcan)

/-- When rotation is allowed and some candidate point feasible for the
unrotated orientation is bottom-left minimal among all feasible
(point, orientation) pairs, the returned position is unrotated. -/
theorem findBestPosition_tie_unrotated (part : Part) (sheet : Sheet)
    (placed : List PlacedPart) (g1 g2 : ℚ) (rotation : RotationOption)
    (hrot : rotation ≠ RotationOption.NONE) (pt0 : ℚ × ℚ)
    (hmem0 : pt0 ∈ candidatePoints g1 g2 placed)
    (hcan0 : canPlace (orientW part false) (orientH part false) pt0.1 pt0.2 sheet placed g1 g2 =
      true)
    (hmin0 : ∀ pt ∈ candidatePoints g1 g2 placed, ∀ rb : Bool,
      canPlace (orientW part rb) (orientH part rb) pt.1 pt.2 sheet placed g1 g2 = true →
      ¬ posLtLex (pt.1, pt.2) (pt0.1, pt0.2)) :
    ∃ p, findBestPosition part sheet placed g1 g2 rotation = some p ∧ p.rotated = false := by
  obtain ⟨b1, hb1⟩ := foldl_updateBest_some_of_feasible part.width part.length false sheet
    placed g1 g2 (candidatePoints g1 g2 placed) none pt0 hmem0
    (by simpa [orientW, orientH] using hcan0)
  have hb1rot : b1.rotated = false := by
    rcases foldl_updateBest_source part.width part.length false sheet placed g1 g2
      (candidatePoints g1 g2 placed) none with h2 | ⟨pt, _, _, heq⟩
    · rw [h2] at hb1; exact absurd hb1 (by simp)
    · rw [heq] at hb1
      obtain rfl : (⟨pt.1, pt.2, false⟩ : PlacePos) = b1 := Option.some_injective _ hb1
      rfl
  have hb1min : ¬ posLtLex (pt0.1, pt0.2) (b1.x, b1.y) :=
    foldl_updateBest_min part.width part.length false sheet placed g1 g2 _ _ b1 hb1 pt0 hmem0
      (by simpa [orientW, orientH] using hcan0)
  have hb1le : ∀ pt ∈ candidatePoints g1 g2 placed, ∀ rb : Bool,
      canPlace (orientW part rb) (orientH part rb) pt.1 pt.2 sheet placed g1 g2 = true →
      ¬ posLtLex (pt.1, pt.2) (b1.x, b1.y) := by
    intro pt hmem rb hcan hlt
    rcases posLtLex_resolve hb1min with hres | ⟨he1, he2⟩
    · exact hmin0 pt hmem rb hcan (posLtLex_trans hlt hres)
    · have he1' : pt0.1 = b1.x := he1
      have he2' : pt0.2 = b1.y := he2
      exact hmin0 pt hmem rb hcan (by rw [he1', he2']; exact hlt)
  refine ⟨b1, ?_, hb1rot⟩
  unfold findBestPosition
  rw [if_pos hrot, tryPlacing_eq_foldl, tryPlacing_eq_foldl, hb1]
  exact foldl_updateBest_keep part.length part.width true sheet placed g1 g2 _ b1
    fun pt hmem hcan => hb1le pt hmem true (by simpa [orientW, orientH] using hcan)

/-- C7: with rotation permitted, any position returned by
`findBestPosition` is a candidate anchor point, feasible for the
orientation recorded in its rotated flag, and no candidate point
feasible in either orientation is strictly smaller in the bottom-left
(y, then x) order; moreover, whenever some candidate point feasible for
the unrotated orientation attains the overall minimum — in particular
when feasible unrotated and rotated candidates tie at the same minimal
(y, x) — the returned position has `rotated = false`. -/
theorem findBestPosition_bottomLeft_and_tie (part : Part) (sheet : Sheet)
    (placed : List PlacedPart) (g1 g2 : ℚ) (rotation : RotationOption)
    (hrot : rotation ≠ RotationOption.NONE) :
    (∀ p, findBestPosition part sheet placed g1 g2 rotation = some p →
      (p.x, p.y) ∈ candidatePoints g1 g2 placed ∧
      canPlace (orientW part p.rotated) (orientH part p.rotated) p.x p.y sheet placed g1 g2 =
        true ∧
      ∀ pt ∈ candidatePoints g1 g2 placed, ∀ rb : Bool,
        canPlace (orientW part rb) (orientH part rb) pt.1 pt.2 sheet placed g1 g2 = true →
        ¬ posLtLex (pt.1, pt.2) (p.x, p.y)) ∧
    (∀ pt0 ∈ candidatePoints g1 g2 placed,
      canPlace (orientW part false) (orientH part false) pt0.1 pt0.2 sheet placed g1 g2 = true →
      (∀ pt ∈ candidatePoints g1 g2 placed, ∀ rb : Bool,
        canPlace (orientW part rb) (orientH part rb) pt.1 pt.2 sheet placed g1 g2 = true →
        ¬ posLtLex (pt.1, pt.2) (pt0.1, pt0.2)) →
      ∃ p, findBestPosition part sheet placed g1 g2 rotation = some p ∧ p.rotated = false) := by
  constructor
  · intro p h
    obtain ⟨hcan, hmem⟩ := findBestPosition_feasible part sheet placed g1 g2 rotation p h
    exact ⟨hmem, hcan, fun pt hm rb hc =>
      findBestPosition_min part sheet placed g1 g2 rotation p h pt hm rb (fun _ => hrot) hc⟩
  · intro pt0 hmem0 hcan0 hmin0
    exact findBestPosition_tie_unrotated part sheet placed g1 g2 rotation hrot pt0 hmem0 hcan0
      hmin0

/-- Witness for C7: on the square part and empty sheet both
orientations are feasible at the single candidate point (0, 0), the
hypotheses of the theorem hold, and its conclusion is obtained at this
concrete input. -/
theorem findBestPosition_bottomLeft_and_tie_witness :
    (RotationOption.NINETY ≠ RotationOption.NONE) ∧
    ((∀ p, findBestPosition partSq sheetSq [] 0 0 RotationOption.NINETY = some p →
      (p.x, p.y) ∈ candidatePoints 0 0 [] ∧
      canPlace (orientW partSq p.rotated) (orientH partSq p.rotated) p.x p.y sheetSq [] 0 0 =
        true ∧
      ∀ pt ∈ candidatePoints 0 0 [], ∀ rb : Bool,
        canPlace (orientW partSq rb) (orientH partSq rb) pt.1 pt.2 sheetSq [] 0 0 = true →
        ¬ posLtLex (pt.1, pt.2) (p.x, p.y)) ∧
    (∀ pt0 ∈ candidatePoints 0 0 [],
      canPlace (orientW partSq false) (orientH partSq false) pt0.1 pt0.2 sheetSq [] 0 0 = true →
      (∀ pt ∈ candidatePoints 0 0 [], ∀ rb : Bool,
        canPlace (orientW partSq rb) (orientH partSq rb) pt.1 pt.2 sheetSq [] 0 0 = true →
        ¬ posLtLex (pt.1, pt.2) (pt0.1, pt0.2)) →
      ∃ p, findBestPosition partSq sheetSq [] 0 0 RotationOption.NINETY = some p ∧
        p.rotated = false)) :=
  ⟨by decide,
    findBestPosition_bottomLeft_and_tie partSq sheetSq [] 0 0 RotationOption.NINETY (by decide)⟩

/-! ## Lemmas towards the no-overlap invariant -/

theorem canPlace_all_not_overlapsB (pw ph px py : ℚ) (sheet : Sheet)
    (placed : List PlacedPart) (g1 g2 : ℚ)
    (h : canPlace pw ph px py sheet placed g1 g2 = true) :
    ∀ o ∈ placed, overlapsB px py pw ph o g1 = false := by
  unfold canPlace at h
  split_ifs at h
  intro o hmem
  have ho := List.all_eq_true.mp h o hmem
  simpa using ho

theorem noOverlap_of_overlapsB_false (g1 : ℚ) (o np : PlacedPart)
    (h : overlapsB np.x np.y (placedWidth np) (placedHeight np) o g1 = false) :
    noOverlap g1 o np := by
  rintro ⟨h1, h2, h3, h4⟩
  have : overlapsB np.x np.y (placedWidth np) (placedHeight np) o g1 = true := by
    simp only [overlapsB, Bool.and_eq_true, decide_eq_true_eq]
    exact ⟨⟨⟨h2, h1⟩, h4⟩, h3⟩
  rw [this] at h
  exact absurd h (by simp)

theorem placePass_foldl_pairwise (sheet : Sheet) (g1 g2 : ℚ) (rot : RotationOption) :
    ∀ (pool : List Part) (acc : List PlacedPart × List Part),
      List.Pairwise (noOverlap g1) acc.1 →
      List.Pairwise (noOverlap g1) (pool.foldl (placeStep sheet g1 g2 rot) acc).1 := by
  intro pool
  induction pool with
  | nil => intro acc h; exact h
  | cons part rest ih =>
    intro acc h
    rw [List.foldl_cons]
    apply ih
    unfold placeStep
    cases hfind : findBestPosition part sheet acc.1 g1 g2 rot with
    | none => exact h
    | some pos =>
      simp only []
      have hcan := (findBestPosition_feasible part sheet acc.1 g1 g2 rot pos hfind).1
      refine List.pairwise_append.mpr ⟨h, List.pairwise_singleton _ _, ?_⟩
      intro a ha b hb
      have hb2 : b = { part with x := pos.x, y := pos.y, rotated := pos.rotated } := by
        simpa using hb
      subst hb2
      exact noOverlap_of_overlapsB_false g1 a _
        (canPlace_all_not_overlapsB _ _ _ _ sheet acc.1 g1 g2 hcan a ha)

theorem placePass_pairwise (pool : List Part) (sheet : Sheet) (g1 g2 : ℚ)
    (rot : RotationOption) :
    List.Pairwise (noOverlap g1) (placePass pool sheet g1 g2 rot).1 :=
  placePass_foldl_pairwise sheet g1 g2 rot pool ([], []) List.Pairwise.nil

theorem fillWithDef_pairwise (sheetDef : Sheet) (g1 g2 : ℚ) (rot : RotationOption)
    (mat : Material) :
    ∀ (fuel : Nat) (pool : List Part) (cnt : Nat),
      ∀ L ∈ (fillWithDef sheetDef g1 g2 rot mat fuel pool cnt).1,
        List.Pairwise (noOverlap g1) L.placedParts := by
  intro fuel
  induction fuel with
  | zero => intro pool cnt L hL; exact absurd hL (List.not_mem_nil L)
  | succ n ih =>
    intro pool cnt L hL
    unfold fillWithDef at hL
    by_cases hp : pool = []
    · rw [if_pos hp] at hL; exact absurd hL (List.not_mem_nil L)
    · rw [if_neg hp] at hL
      by_cases hpr : (placePass pool sheetDef g1 g2 rot).1 = []
      · rw [if_pos hpr] at hL; exact absurd hL (List.not_mem_nil L)
      · rw [if_neg hpr] at hL
        rcases List.mem_cons.mp hL with hL1 | hL1
        · subst hL1
          exact placePass_pairwise pool sheetDef g1 g2 rot
        · exact ih _ _ L hL1

theorem fillDefs_pairwise (g1 g2 : ℚ) (rot : RotationOption) (mat : Material) :
    ∀ (defs : List Sheet) (pool : List Part) (cnt : Nat),
      ∀ L ∈ (fillDefs g1 g2 rot mat defs pool cnt).1,
        List.Pairwise (noOverlap g1) L.placedParts := by
  intro defs
  induction defs with
  | nil => intro pool cnt L hL; exact absurd hL (List.not_mem_nil L)
  | cons d ds ih =>
    intro pool cnt L hL
    unfold fillDefs at hL
    by_cases hp : pool = []
    · rw [if_pos hp] at hL; exact absurd hL (List.not_mem_nil L)
    · rw [if_neg hp] at hL
      rcases List.mem_append.mp hL with hL1 | hL1
      · exact fillWithDef_pairwise d g1 g2 rot mat d.quantity pool cnt L hL1
      · exact ih _ _ L hL1

theorem sheetGroups_foldl_pairwise (sheets : List Sheet) (g1 g2 : ℚ) (rot : RotationOption)
    (mat : Material) :
    ∀ (groups : List (List Char × List Part)) (acc : List SheetLayout × List Part),
      (∀ L ∈ acc.1, List.Pairwise (noOverlap g1) L.placedParts) →
      ∀ L ∈ (groups.foldl (sheetGroupStep sheets g1 g2 rot mat) acc).1,
        List.Pairwise (noOverlap g1) L.placedParts := by
  intro groups
  induction groups with
  | nil => intro acc h; exact h
  | cons g gs ih =>
    intro acc h
    rw [List.foldl_cons]
    apply ih
    unfold sheetGroupStep
    by_cases hd : sheetDefsForGroup sheets g.1 = []
    · rw [if_pos hd]; exact h
    · rw [if_neg hd]
      intro L hL
      rcases List.mem_append.mp hL with hL1 | hL1
      · exact h L hL1
      · exact fillDefs_pairwise g1 g2 rot mat _ _ _ L hL1

/-- C4: on every sheet layout produced by `performSheetNesting`, any
two distinct placed parts have disjoint clearance-inflated bounding
boxes (using the rotated extents where `rotated = true`): the
axis-aligned overlap test with the part-to-part clearance gap fails on
at least one axis. -/
theorem performSheetNesting_no_overlap (sheets : List Sheet) (parts : List Part)
    (g1 g2 : ℚ) (rot : RotationOption) (mat : Material) :
    ∀ L ∈ (performSheetNesting sheets parts g1 g2 rot mat).layouts,
      List.Pairwise (noOverlap g1) L.placedParts := by
  intro L hL
  exact sheetGroups_foldl_pairwise sheets g1 g2 rot mat (groupByKey partKey parts) ([], [])
    (fun _ h => absurd h (List.not_mem_nil _)) L hL

/-- Witness for C4: the run that places the square part twice on one
sheet yields a non-empty layout list, and the theorem instantiated at
this input gives the pairwise-disjointness of each of its layouts. -/
theorem performSheetNesting_no_overlap_witness :
    (performSheetNesting [sheetSq] [partSqPair] 0 0 RotationOption.NONE matMS).layouts ≠ [] ∧
    ∀ L ∈ (performSheetNesting [sheetSq] [partSqPair] 0 0 RotationOption.NONE matMS).layouts,
      List.Pairwise (noOverlap 0) L.placedParts :=
  ⟨by with_unfolding_all decide,
    performSheetNesting_no_overlap [sheetSq] [partSqPair] 0 0 RotationOption.NONE matMS⟩

/-! ## Determinism of the non-randomized paths -/

theorem selectBestCutsForBar_speed (u : ℚ) (pool : List CutPart) (rng : RandSrc) (ctr : Nat) :
    selectBestCutsForBar u OptimizationGoal.PRIORITIZE_SPEED pool rng ctr =
      (((ffdBaseline u pool).1, u - (ffdBaseline u pool).2), ctr) := by
  unfold selectBestCutsForBar ffdBaseline
  rw [if_neg]
  rintro ⟨h, _⟩
  exact absurd h (by simp)

theorem packBars_speed_rng_irrelevant (u s : ℚ) (raw : List Char) (grp : List LinearPart)
    (rng1 rng2 : RandSrc) :
    ∀ (fuel : Nat) (pool : List CutPart) (ctr idx : Nat),
      packBars u s OptimizationGoal.PRIORITIZE_SPEED raw grp rng1 fuel pool ctr idx =
        packBars u s OptimizationGoal.PRIORITIZE_SPEED raw grp rng2 fuel pool ctr idx := by
  intro fuel
  induction fuel with
  | zero => intro pool ctr idx; rfl
  | succ n ih =>
    intro pool ctr idx
    unfold packBars
    simp only [selectBestCutsForBar_speed, ih]

theorem linearGroupStep_speed_rng_irrelevant (u s : ℚ) (rng1 rng2 : RandSrc)
    (acc : List StockLayout × List LinearPart × Nat × Nat) (g : List Char × List LinearPart) :
    linearGroupStep u s OptimizationGoal.PRIORITIZE_SPEED rng1 acc g =
      linearGroupStep u s OptimizationGoal.PRIORITIZE_SPEED rng2 acc g := by
  unfold linearGroupStep
  simp only [packBars_speed_rng_irrelevant u s g.1 g.2 rng1 rng2]

/-- C5: the 2D packer is a pure function of its declared inputs — two
calls with identical arguments give identical results — and the 1D
packer in speed mode does not depend on the pseudo-random source: any
two streams give identical results.  (In this embedding the ambient
`Math.random` stream is the only effect; `performSheetNesting` never
reads it, which is why its model takes no stream at all, and the speed
path of `performLinearNesting` provably ignores it.) -/
theorem nesting_deterministic (sheets : List Sheet) (parts : List Part) (g1 g2 : ℚ)
    (rot : RotationOption) (mat : Material) (s : ℚ) (lparts : List LinearPart) (la ra : ℚ)
    (rng1 rng2 : RandSrc) :
    performSheetNesting sheets parts g1 g2 rot mat =
        performSheetNesting sheets parts g1 g2 rot mat ∧
      performLinearNesting s lparts OptimizationGoal.PRIORITIZE_SPEED la ra rng1 =
        performLinearNesting s lparts OptimizationGoal.PRIORITIZE_SPEED la ra rng2 := by
  refine ⟨rfl, ?_⟩
  unfold performLinearNesting
  have hfold : ∀ (groups : List (List Char × List LinearPart))
      (acc : List StockLayout × List LinearPart × Nat × Nat),
      groups.foldl (linearGroupStep (s - la - ra) s OptimizationGoal.PRIORITIZE_SPEED rng1)
          acc =
        groups.foldl (linearGroupStep (s - la - ra) s OptimizationGoal.PRIORITIZE_SPEED rng2)
          acc := by
    intro groups
    induction groups with
    | nil => intro acc; rfl
    | cons g gs ihg =>
      intro acc
      rw [List.foldl_cons, List.foldl_cons,
        linearGroupStep_speed_rng_irrelevant (s - la - ra) s rng1 rng2 acc g, ihg]
  simp only [hfold]

/-! ## Bar-capacity lemmas -/

theorem sumEff_append_one (l : List CutPart) (c : CutPart) :
    sumEff (l ++ [c]) = sumEff l + c.effectiveLength := by
  unfold sumEff
  rw [List.foldl_append, List.foldl_cons, List.foldl_nil]

theorem greedyAccum_foldl_ok (u : ℚ) :
    ∀ (l : List CutPart) (acc : List CutPart × ℚ),
      acc.2 = sumEff acc.1 → (acc.1 ≠ [] → acc.2 ≤ u) →
      (l.foldl (greedyStep u) acc).2 = sumEff (l.foldl (greedyStep u) acc).1 ∧
        ((l.foldl (greedyStep u) acc).1 ≠ [] → (l.foldl (greedyStep u) acc).2 ≤ u) := by
  intro l
  induction l with
  | nil => intro acc h1 h2; exact ⟨h1, h2⟩
  | cons p rest ih =>
    intro acc h1 h2
    rw [List.foldl_cons]
    unfold greedyStep
    by_cases hle : acc.2 + p.effectiveLength ≤ u
    · rw [if_pos hle]
      exact ih _ (by rw [sumEff_append_one, ← h1]) (fun _ => hle)
    · rw [if_neg hle]
      exact ih acc h1 h2

theorem greedyAccum_eq_foldl (u : ℚ) (l : List CutPart) :
    greedyAccum u l = l.foldl (greedyStep u) ([], 0) := rfl

theorem greedyAccum_snd (u : ℚ) (l : List CutPart) :
    (greedyAccum u l).2 = sumEff (greedyAccum u l).1 := by
  rw [greedyAccum_eq_foldl]
  exact (greedyAccum_foldl_ok u l ([], 0) rfl (fun h => absurd rfl h)).1

theorem greedyAccum_le (u : ℚ) (l : List CutPart) (h : (greedyAccum u l).1 ≠ []) :
    (greedyAccum u l).2 ≤ u := by
  rw [greedyAccum_eq_foldl] at h ⊢
  exact (greedyAccum_foldl_ok u l ([], 0) rfl (fun hx => absurd rfl hx)).2 h

theorem greedyAccum_pair_ok (u : ℚ) (l : List CutPart) :
    barCandidateOk u ((greedyAccum u l).1, u - (greedyAccum u l).2) := by
  constructor
  · show u - (greedyAccum u l).2 = u - sumEff (greedyAccum u l).1
    rw [greedyAccum_snd]
  · intro hne
    show sumEff (greedyAccum u l).1 ≤ u
    rw [← greedyAccum_snd]
    exact greedyAccum_le u l hne

theorem runTrials_succ (u : ℚ) (rng : RandSrc) (m : Nat) (temp : List CutPart) (ctr : Nat)
    (best : List CutPart × ℚ) :
    runTrials u rng (m + 1) temp ctr best =
      runTrials u rng m (shuffleList rng temp ctr).1 (shuffleList rng temp ctr).2
        (if u - (greedyAccum u (shuffleList rng temp ctr).1).2 < best.2 then
          ((greedyAccum u (shuffleList rng temp ctr).1).1,
            u - (greedyAccum u (shuffleList rng temp ctr).1).2)
        else best) := rfl

theorem runTrials_best_ok (u : ℚ) (rng : RandSrc) :
    ∀ (n : Nat) (temp : List CutPart) (ctr : Nat) (best : List CutPart × ℚ),
      barCandidateOk u best → barCandidateOk u (runTrials u rng n temp ctr best).1 := by
  intro n
  induction n with
  | zero => intro temp ctr best h; exact h
  | succ m ih =>
    intro temp ctr best h
    rw [runTrials_succ]
    apply ih
    by_cases hlt : u - (greedyAccum u (shuffleList rng temp ctr).1).2 < best.2
    · rw [if_pos hlt]
      exact greedyAccum_pair_ok u (shuffleList rng temp ctr).1
    · rw [if_neg hlt]
      exact h

theorem selectBestCutsForBar_eq (u : ℚ) (goal : OptimizationGoal) (pool : List CutPart)
    (rng : RandSrc) (ctr : Nat) :
    selectBestCutsForBar u goal pool rng ctr =
      if goal = OptimizationGoal.MINIMIZE_WASTE ∧ pool.length > 1 then
        ((runTrials u rng SHUFFLE_ITERATIONS pool ctr
            ((greedyAccum u (sortEffDesc pool)).1, u - (greedyAccum u (sortEffDesc pool)).2)).1,
          (runTrials u rng SHUFFLE_ITERATIONS pool ctr
            ((greedyAccum u (sortEffDesc pool)).1,
              u - (greedyAccum u (sortEffDesc pool)).2)).2.2)
      else (((greedyAccum u (sortEffDesc pool)).1, u - (greedyAccum u (sortEffDesc pool)).2),
        ctr) := rfl

theorem selectBestCutsForBar_ok (u : ℚ) (goal : OptimizationGoal) (pool : List CutPart)
    (rng : RandSrc) (ctr : Nat) :
    barCandidateOk u (selectBestCutsForBar u goal pool rng ctr).1 := by
  rw [selectBestCutsForBar_eq]
  split
  · exact runTrials_best_ok u rng SHUFFLE_ITERATIONS pool ctr _
      (greedyAccum_pair_ok u (sortEffDesc pool))
  · exact greedyAccum_pair_ok u (sortEffDesc pool)

theorem packBars_succ (u s : ℚ) (goal : OptimizationGoal) (raw : List Char)
    (grp : List LinearPart) (rng : RandSrc) (n : Nat) (pool : List CutPart) (ctr idx : Nat) :
    packBars u s goal raw grp rng (n + 1) pool ctr idx =
      if pool = [] then ⟨[], [], ctr, idx⟩
      else if (selectBestCutsForBar u goal pool rng ctr).1.1 = [] then
        ⟨[], emptyBarUnplaced grp pool, (selectBestCutsForBar u goal pool rng ctr).2, idx⟩
      else
        let bestCuts := (selectBestCutsForBar u goal pool rng ctr).1.1
        let r := packBars u s goal raw grp rng n
          (pool.filter fun p => !(decide (p.instanceId ∈ bestCuts.map fun c => c.instanceId)))
          (selectBestCutsForBar u goal pool rng ctr).2 (idx + 1)
        ⟨{ stockIndex := idx, stockLength := s, cuts := bestCuts, usedLength := sumEff bestCuts,
            wasteLength := 0, wastePercentage := 0, rawMaterial := raw } :: r.layouts,
          r.unplaced, r.ctr, r.nextIndex⟩ := rfl

theorem packBars_layouts_capacity (u s : ℚ) (goal : OptimizationGoal) (raw : List Char)
    (grp : List LinearPart) (rng : RandSrc) :
    ∀ (fuel : Nat) (pool : List CutPart) (ctr idx : Nat),
      ∀ L ∈ (packBars u s goal raw grp rng fuel pool ctr idx).layouts,
        L.usedLength = sumEff L.cuts ∧ L.usedLength ≤ u := by
  intro fuel
  induction fuel with
  | zero => intro pool ctr idx L hL; exact absurd hL (List.not_mem_nil L)
  | succ n ih =>
    intro pool ctr idx L hL
    rw [packBars_succ] at hL
    by_cases hp : pool = []
    · rw [if_pos hp] at hL; exact absurd hL (List.not_mem_nil L)
    · rw [if_neg hp] at hL
      by_cases hb : (selectBestCutsForBar u goal pool rng ctr).1.1 = []
      · rw [if_pos hb] at hL; exact absurd hL (List.not_mem_nil L)
      · rw [if_neg hb] at hL
        rcases List.mem_cons.mp hL with hL1 | hL1
        · subst hL1
          obtain ⟨_, h2⟩ := selectBestCutsForBar_ok u goal pool rng ctr
          exact ⟨rfl, h2 hb⟩
        · exact ih _ _ _ L hL1

theorem linearGroups_foldl_capacity (u s : ℚ) (goal : OptimizationGoal) (rng : RandSrc) :
    ∀ (groups : List (List Char × List LinearPart))
      (acc : List StockLayout × List LinearPart × Nat × Nat),
      (∀ L ∈ acc.1, L.usedLength = sumEff L.cuts ∧ L.usedLength ≤ u) →
      ∀ L ∈ (groups.foldl (linearGroupStep u s goal rng) acc).1,
        L.usedLength = sumEff L.cuts ∧ L.usedLength ≤ u := by
  intro groups
  induction groups with
  | nil => intro acc h; exact h
  | cons g gs ih =>
    intro acc h
    rw [List.foldl_cons]
    apply ih
    unfold linearGroupStep
    intro L hL
    rcases List.mem_append.mp hL with hL1 | hL1
    · exact h L hL1
    · exact packBars_layouts_capacity u s goal g.1 g.2 rng _ _ _ _ L hL1

/-- C8: every stock layout committed by `performLinearNesting` fits in
the usable length: its `usedLength` is the sum of the effective lengths
of its cuts and is at most stockLength minus both end allowances. -/
theorem performLinearNesting_bar_capacity (s : ℚ) (parts : List LinearPart)
    (goal : OptimizationGoal) (la ra : ℚ) (rng : RandSrc) :
    ∀ L ∈ (performLinearNesting s parts goal la ra rng).layouts,
      L.usedLength = sumEff L.cuts ∧ L.usedLength ≤ s - la - ra := by
  intro L hL
  have hres := linearGroups_foldl_capacity (s - la - ra) s goal rng
    (groupByKey (fun p => p.rawMaterial) parts) ([], [], 0, 1)
    (fun _ h => absurd h (List.not_mem_nil _))
  obtain ⟨L0, hL0, rfl⟩ := List.mem_map.mp hL
  obtain ⟨h1, h2⟩ := hres L0 hL0
  exact ⟨h1, h2⟩

/-- Witness for C8: a concrete speed-mode run returns a non-empty
layout list, and the theorem instantiated there bounds each layout. -/
theorem performLinearNesting_bar_capacity_witness :
    (performLinearNesting 6000 [mkLinearPart 1 2000 2, mkLinearPart 2 1000 1]
        OptimizationGoal.PRIORITIZE_SPEED 0 0 rngZero).layouts ≠ [] ∧
    ∀ L ∈ (performLinearNesting 6000 [mkLinearPart 1 2000 2, mkLinearPart 2 1000 1]
        OptimizationGoal.PRIORITIZE_SPEED 0 0 rngZero).layouts,
      L.usedLength = sumEff L.cuts ∧ L.usedLength ≤ 6000 - 0 - 0 :=
  ⟨by with_unfolding_all decide,
    performLinearNesting_bar_capacity 6000 [mkLinearPart 1 2000 2, mkLinearPart 2 1000 1]
      OptimizationGoal.PRIORITIZE_SPEED 0 0 rngZero⟩

/-! ## Membership and progress lemmas for the bar-filling loop -/

theorem greedyAccum_foldl_subset (u : ℚ) :
    ∀ (l : List CutPart) (acc : List CutPart × ℚ),
      ∀ c ∈ (l.foldl (greedyStep u) acc).1, c ∈ acc.1 ∨ c ∈ l := by
  intro l
  induction l with
  | nil => intro acc c hc; exact Or.inl hc
  | cons p rest ih =>
    intro acc c hc
    rw [List.foldl_cons] at hc
    rcases ih (greedyStep u acc p) c hc with h | h
    · unfold greedyStep at h
      by_cases hle : acc.2 + p.effectiveLength ≤ u
      · rw [if_pos hle] at h
        rcases List.mem_append.mp h with h1 | h1
        · exact Or.inl h1
        · exact Or.inr (List.mem_cons.mpr (Or.inl (by simpa using h1)))
      · rw [if_neg hle] at h
        exact Or.inl h
    · exact Or.inr (List.mem_cons_of_mem _ h)

theorem greedyAccum_subset (u : ℚ) (l : List CutPart) :
    ∀ c ∈ (greedyAccum u l).1, c ∈ l := by
  intro c hc
  rcases greedyAccum_foldl_subset u l ([], 0) c hc with h | h
  · exact absurd h (List.not_mem_nil c)
  · exact h

theorem sortEffDesc_perm (l : List CutPart) : (sortEffDesc l).Perm l :=
  List.perm_insertionSort _ l

theorem greedyAccum_foldl_ne_nil (u : ℚ) :
    ∀ (l : List CutPart) (acc : List CutPart × ℚ), acc.1 ≠ [] →
      (l.foldl (greedyStep u) acc).1 ≠ [] := by
  intro l
  induction l with
  | nil => intro acc h; exact h
  | cons p rest ih =>
    intro acc h
    rw [List.foldl_cons]
    apply ih
    unfold greedyStep
    by_cases hle : acc.2 + p.effectiveLength ≤ u
    · rw [if_pos hle]
      simp
    · rw [if_neg hle]
      exact h

theorem greedyAccum_ne_nil (u : ℚ) (l : List CutPart) (hne : l ≠ [])
    (hall : ∀ c ∈ l, c.effectiveLength ≤ u) : (greedyAccum u l).1 ≠ [] := by
  obtain ⟨h, t, rfl⟩ := List.exists_cons_of_ne_nil hne
  show (List.foldl (greedyStep u) ([], 0) (h :: t)).1 ≠ []
  rw [List.foldl_cons]
  apply greedyAccum_foldl_ne_nil
  unfold greedyStep
  rw [if_pos]
  · simp
  · simpa using hall h (List.mem_cons_self _ _)

theorem swapAt_subset (l : List CutPart) (i j : Nat) : ∀ c ∈ swapAt l i j, c ∈ l := by
  unfold swapAt
  cases h1 : l[i]? with
  | none => intro c hc; exact hc
  | some a =>
    cases h2 : l[j]? with
    | none => intro c hc; exact hc
    | some b =>
      intro c hc
      rcases List.mem_or_eq_of_mem_set hc with hc1 | hc1
      · rcases List.mem_or_eq_of_mem_set hc1 with hc2 | hc2
        · exact hc2
        · subst hc2
          obtain ⟨hlt, rfl⟩ := List.getElem?_eq_some_iff.mp h2
          exact List.getElem_mem hlt
      · subst hc1
        obtain ⟨hlt, rfl⟩ := List.getElem?_eq_some_iff.mp h1
        exact List.getElem_mem hlt

theorem swapAt_length (l : List CutPart) (i j : Nat) : (swapAt l i j).length = l.length := by
  unfold swapAt
  cases h1 : l[i]? with
  | none => rfl
  | some a =>
    cases h2 : l[j]? with
    | none => rfl
    | some b => rw [List.length_set, List.length_set]

theorem shuffleGo_subset (rng : RandSrc) :
    ∀ (j : Nat) (l : List CutPart) (ctr : Nat), ∀ c ∈ (shuffleGo rng j l ctr).1, c ∈ l := by
  intro j
  induction j with
  | zero => intro l ctr c hc; exact hc
  | succ m ih =>
    intro l ctr c hc
    unfold shuffleGo at hc
    exact swapAt_subset l (m + 1) (rng ctr % (m + 2)) c (ih _ _ c hc)

theorem shuffleGo_length (rng : RandSrc) :
    ∀ (j : Nat) (l : List CutPart) (ctr : Nat), (shuffleGo rng j l ctr).1.length = l.length := by
  intro j
  induction j with
  | zero => intro l ctr; rfl
  | succ m ih =>
    intro l ctr
    unfold shuffleGo
    rw [ih, swapAt_length]

theorem shuffleList_subset (rng : RandSrc) (l : List CutPart) (ctr : Nat) :
    ∀ c ∈ (shuffleList rng l ctr).1, c ∈ l :=
  shuffleGo_subset rng (l.length - 1) l ctr

theorem shuffleList_length (rng : RandSrc) (l : List CutPart) (ctr : Nat) :
    (shuffleList rng l ctr).1.length = l.length :=
  shuffleGo_length rng (l.length - 1) l ctr

theorem runTrials_subset (u : ℚ) (rng : RandSrc) (pool : List CutPart) :
    ∀ (n : Nat) (temp : List CutPart) (ctr : Nat) (best : List CutPart × ℚ),
      (∀ c ∈ temp, c ∈ pool) → (∀ c ∈ best.1, c ∈ pool) →
      ∀ c ∈ (runTrials u rng n temp ctr best).1.1, c ∈ pool := by
  intro n
  induction n with
  | zero => intro temp ctr best _ hb c hc; exact hb c hc
  | succ m ih =>
    intro temp ctr best ht hb c hc
    rw [runTrials_succ] at hc
    have ht2 : ∀ x ∈ (shuffleList rng temp ctr).1, x ∈ pool :=
      fun x hx => ht x (shuffleList_subset rng temp ctr x hx)
    refine ih _ _ _ ht2 ?_ c hc
    by_cases hlt : u - (greedyAccum u (shuffleList rng temp ctr).1).2 < best.2
    · rw [if_pos hlt]
      intro x hx
      exact ht2 x (greedyAccum_subset u _ x hx)
    · rw [if_neg hlt]
      exact hb

theorem runTrials_ne_nil (u : ℚ) (rng : RandSrc) (pool : List CutPart)
    (hall : ∀ c ∈ pool, c.effectiveLength ≤ u) :
    ∀ (n : Nat) (temp : List CutPart) (ctr : Nat) (best : List CutPart × ℚ),
      (∀ c ∈ temp, c ∈ pool) → temp.length = pool.length → pool ≠ [] → best.1 ≠ [] →
      (runTrials u rng n temp ctr best).1.1 ≠ [] := by
  intro n
  induction n with
  | zero => intro temp ctr best _ _ _ hb; exact hb
  | succ m ih =>
    intro temp ctr best ht hlen hpool hb
    rw [runTrials_succ]
    have ht2 : ∀ x ∈ (shuffleList rng temp ctr).1, x ∈ pool :=
      fun x hx => ht x (shuffleList_subset rng temp ctr x hx)
    have hlen2 : (shuffleList rng temp ctr).1.length = pool.length := by
      rw [shuffleList_length]; exact hlen
    refine ih _ _ _ ht2 hlen2 hpool ?_
    by_cases hlt : u - (greedyAccum u (shuffleList rng temp ctr).1).2 < best.2
    · rw [if_pos hlt]
      apply greedyAccum_ne_nil
      · intro he
        rw [he] at hlen2
        exact hpool (List.length_eq_zero.mp hlen2.symm)
      · exact fun c hc => hall c (ht2 c hc)
    · rw [if_neg hlt]
      exact hb

theorem selectBestCutsForBar_subset (u : ℚ) (goal : OptimizationGoal) (pool : List CutPart)
    (rng : RandSrc) (ctr : Nat) :
    ∀ c ∈ (selectBestCutsForBar u goal pool rng ctr).1.1, c ∈ pool := by
  rw [selectBestCutsForBar_eq]
  have hbase : ∀ c ∈ (greedyAccum u (sortEffDesc pool)).1, c ∈ pool := fun c hc =>
    (sortEffDesc_perm pool).mem_iff.mp (greedyAccum_subset u (sortEffDesc pool) c hc)
  split
  · exact runTrials_subset u rng pool SHUFFLE_ITERATIONS pool ctr _ (fun c hc => hc) hbase
  · exact hbase

theorem selectBestCutsForBar_ne_nil (u : ℚ) (goal : OptimizationGoal) (pool : List CutPart)
    (rng : RandSrc) (ctr : Nat) (hne : pool ≠ [])
    (hall : ∀ c ∈ pool, c.effectiveLength ≤ u) :
    (selectBestCutsForBar u goal pool rng ctr).1.1 ≠ [] := by
  rw [selectBestCutsForBar_eq]
  have hsne : sortEffDesc pool ≠ [] := by
    intro he
    have := (sortEffDesc_perm pool).length_eq
    rw [he] at this
    exact hne (List.length_eq_zero.mp this.symm)
  have hsall : ∀ c ∈ sortEffDesc pool, c.effectiveLength ≤ u := fun c hc =>
    hall c ((sortEffDesc_perm pool).mem_iff.mp hc)
  have hbase : (greedyAccum u (sortEffDesc pool)).1 ≠ [] :=
    greedyAccum_ne_nil u (sortEffDesc pool) hsne hsall
  split
  · exact runTrials_ne_nil u rng pool hall SHUFFLE_ITERATIONS pool ctr _ (fun c hc => hc) rfl
      hne hbase
  · exact hbase

theorem filter_removed_length_lt (pool bestCuts : List CutPart) (hne : bestCuts ≠ [])
    (hsub : ∀ c ∈ bestCuts, c ∈ pool) :
    (pool.filter fun p =>
      !(decide (p.instanceId ∈ bestCuts.map fun c => c.instanceId))).length < pool.length := by
  obtain ⟨h, t, rfl⟩ := List.exists_cons_of_ne_nil hne
  apply List.length_filter_lt_length_iff_exists.mpr
  refine ⟨h, hsub h (List.mem_cons_self _ _), ?_⟩
  simp

/-! ## Immediate rejection and unreachability of the empty-bar branch -/

theorem rejectAndExpand_foldl_fst (u : ℚ) :
    ∀ (l : List LinearPart) (acc : List LinearPart × List CutPart),
      (l.foldl (rejectStep u) acc).1 =
        acc.1 ++ l.filter fun p => decide (p.effectiveLength > u) := by
  intro l
  induction l with
  | nil => intro acc; simp
  | cons p rest ih =>
    intro acc
    rw [List.foldl_cons]
    by_cases hgt : p.effectiveLength > u
    · rw [show rejectStep u acc p = (acc.1 ++ [p], acc.2) from by
        unfold rejectStep; rw [if_pos hgt]]
      rw [ih, List.filter_cons_of_pos (by simpa using hgt), List.append_assoc]
      rfl
    · rw [show rejectStep u acc p = (acc.1, acc.2 ++ instancesOf p) from by
        unfold rejectStep; rw [if_neg hgt]]
      rw [ih, List.filter_cons_of_neg (by simpa using hgt)]

theorem rejectAndExpand_fst (u : ℚ) (l : List LinearPart) :
    (rejectAndExpand u l).1 = l.filter fun p => decide (p.effectiveLength > u) := by
  unfold rejectAndExpand
  rw [rejectAndExpand_foldl_fst]
  rfl

theorem instancesOf_eff (p : LinearPart) :
    ∀ c ∈ instancesOf p, c.effectiveLength = p.effectiveLength := by
  intro c hc
  obtain ⟨i, _, rfl⟩ := List.mem_map.mp hc
  rfl

theorem rejectAndExpand_foldl_snd_le (u : ℚ) :
    ∀ (l : List LinearPart) (acc : List LinearPart × List CutPart),
      (∀ c ∈ acc.2, c.effectiveLength ≤ u) →
      ∀ c ∈ (l.foldl (rejectStep u) acc).2, c.effectiveLength ≤ u := by
  intro l
  induction l with
  | nil => intro acc h; exact h
  | cons p rest ih =>
    intro acc h
    rw [List.foldl_cons]
    apply ih
    unfold rejectStep
    by_cases hgt : p.effectiveLength > u
    · rw [if_pos hgt]
      exact h
    · rw [if_neg hgt]
      intro c hc
      rcases List.mem_append.mp hc with h1 | h1
      · exact h c h1
      · rw [instancesOf_eff p c h1]
        exact le_of_not_lt hgt

theorem rejectAndExpand_snd_le (u : ℚ) (l : List LinearPart) :
    ∀ c ∈ (rejectAndExpand u l).2, c.effectiveLength ≤ u := by
  unfold rejectAndExpand
  exact rejectAndExpand_foldl_snd_le u l ([], [])
    (fun c hc => absurd hc (List.not_mem_nil c))

theorem packBars_unplaced_nil (u s : ℚ) (goal : OptimizationGoal) (raw : List Char)
    (grp : List LinearPart) (rng : RandSrc) :
    ∀ (fuel : Nat) (pool : List CutPart), (∀ c ∈ pool, c.effectiveLength ≤ u) →
      ∀ (ctr idx : Nat), (packBars u s goal raw grp rng fuel pool ctr idx).unplaced = [] := by
  intro fuel
  induction fuel with
  | zero => intro pool _ ctr idx; rfl
  | succ n ih =>
    intro pool hall ctr idx
    rw [packBars_succ]
    by_cases hp : pool = []
    · rw [if_pos hp]
    · rw [if_neg hp, if_neg (selectBestCutsForBar_ne_nil u goal pool rng ctr hp hall)]
      exact ih _ (fun c hc => hall c (List.mem_of_mem_filter hc)) _ _

theorem packBars_cuts_le (u s : ℚ) (goal : OptimizationGoal) (raw : List Char)
    (grp : List LinearPart) (rng : RandSrc) :
    ∀ (fuel : Nat) (pool : List CutPart), (∀ c ∈ pool, c.effectiveLength ≤ u) →
      ∀ (ctr idx : Nat), ∀ L ∈ (packBars u s goal raw grp rng fuel pool ctr idx).layouts,
        ∀ c ∈ L.cuts, c.effectiveLength ≤ u := by
  intro fuel
  induction fuel with
  | zero => intro pool _ ctr idx L hL; exact absurd hL (List.not_mem_nil L)
  | succ n ih =>
    intro pool hall ctr idx L hL
    rw [packBars_succ] at hL
    by_cases hp : pool = []
    · rw [if_pos hp] at hL; exact absurd hL (List.not_mem_nil L)
    · rw [if_neg hp] at hL
      by_cases hb : (selectBestCutsForBar u goal pool rng ctr).1.1 = []
      · rw [if_pos hb] at hL; exact absurd hL (List.not_mem_nil L)
      · rw [if_neg hb] at hL
        rcases List.mem_cons.mp hL with hL1 | hL1
        · subst hL1
          intro c hc
          exact hall c (selectBestCutsForBar_subset u goal pool rng ctr c hc)
        · exact ih _ (fun c hc => hall c (List.mem_of_mem_filter hc)) _ _ L hL1

theorem packBars_layout_cuts_source (u s : ℚ) (goal : OptimizationGoal) (raw : List Char)
    (grp : List LinearPart) (rng : RandSrc) :
    ∀ (fuel : Nat) (pool : List CutPart) (ctr idx : Nat),
      ∀ L ∈ (packBars u s goal raw grp rng fuel pool ctr idx).layouts,
        ∃ pool2 ctr2, L.cuts = (selectBestCutsForBar u goal pool2 rng ctr2).1.1 ∧
          L.usedLength = sumEff L.cuts := by
  intro fuel
  induction fuel with
  | zero => intro pool ctr idx L hL; exact absurd hL (List.not_mem_nil L)
  | succ n ih =>
    intro pool ctr idx L hL
    rw [packBars_succ] at hL
    by_cases hp : pool = []
    · rw [if_pos hp] at hL; exact absurd hL (List.not_mem_nil L)
    · rw [if_neg hp] at hL
      by_cases hb : (selectBestCutsForBar u goal pool rng ctr).1.1 = []
      · rw [if_pos hb] at hL; exact absurd hL (List.not_mem_nil L)
      · rw [if_neg hb] at hL
        rcases List.mem_cons.mp hL with hL1 | hL1
        · subst hL1
          exact ⟨pool, ctr, rfl, rfl⟩
        · exact ih _ _ _ L hL1

theorem bumpLinearQuantity_eff {P : ℚ → Prop} (pid : ℚ) (n : Nat) :
    ∀ (l : List LinearPart), (∀ p ∈ l, P p.effectiveLength) →
      ∀ q ∈ bumpLinearQuantity pid n l, P q.effectiveLength := by
  intro l
  induction l with
  | nil => intro _ q hq; exact absurd hq (List.not_mem_nil q)
  | cons p rest ih =>
    intro h q hq
    unfold bumpLinearQuantity at hq
    by_cases hid : p.id = pid
    · rw [if_pos hid] at hq
      rcases List.mem_cons.mp hq with h1 | h1
      · rw [h1]
        exact h p (List.mem_cons_self _ _)
      · exact h q (List.mem_cons_of_mem _ h1)
    · rw [if_neg hid] at hq
      rcases List.mem_cons.mp hq with h1 | h1
      · rw [h1]
        exact h p (List.mem_cons_self _ _)
      · exact ih (fun x hx => h x (List.mem_cons_of_mem _ hx)) q h1

theorem consolidateLinear_foldl_eff {P : ℚ → Prop} :
    ∀ (l acc : List LinearPart), (∀ p ∈ acc, P p.effectiveLength) →
      (∀ p ∈ l, P p.effectiveLength) →
      ∀ q ∈ l.foldl consolidateLinearStep acc, P q.effectiveLength := by
  intro l
  induction l with
  | nil => intro acc hacc _ q hq; exact hacc q hq
  | cons p rest ih =>
    intro acc hacc hl q hq
    rw [List.foldl_cons] at hq
    refine ih _ ?_ (fun x hx => hl x (List.mem_cons_of_mem _ hx)) q hq
    unfold consolidateLinearStep
    by_cases hany : (acc.any fun q => decide (q.id = p.id)) = true
    · rw [if_pos hany]
      exact bumpLinearQuantity_eff p.id p.quantity acc hacc
    · rw [if_neg hany]
      intro x hx
      rcases List.mem_append.mp hx with h1 | h1
      · exact hacc x h1
      · have hx2 : x = p := by simpa using h1
        rw [hx2]
        exact hl p (List.mem_cons_self _ _)

theorem linearGroups_unplaced_rejected (u s : ℚ) (goal : OptimizationGoal) (rng : RandSrc) :
    ∀ (groups : List (List Char × List LinearPart))
      (acc : List StockLayout × List LinearPart × Nat × Nat),
      (∀ p ∈ acc.2.1, p.effectiveLength > u) →
      ∀ p ∈ (groups.foldl (linearGroupStep u s goal rng) acc).2.1, p.effectiveLength > u := by
  intro groups
  induction groups with
  | nil => intro acc h; exact h
  | cons g gs ih =>
    intro acc h
    rw [List.foldl_cons]
    apply ih
    unfold linearGroupStep
    intro p hp
    rcases List.mem_append.mp hp with h1 | h1
    · exact h p h1
    · rcases List.mem_append.mp h1 with h2 | h2
      · rw [rejectAndExpand_fst] at h2
        have := (List.mem_filter.mp h2).2
        simpa using this
      · rw [packBars_unplaced_nil u s goal g.1 g.2 rng _ _
          (rejectAndExpand_snd_le u g.2) _ _] at h2
        exact absurd h2 (List.not_mem_nil p)

theorem performLinearNesting_unplaced_rejected (s : ℚ) (parts : List LinearPart)
    (goal : OptimizationGoal) (la ra : ℚ) (rng : RandSrc) :
    ∀ q ∈ (performLinearNesting s parts goal la ra rng).unplacedParts,
      q.effectiveLength > s - la - ra := by
  intro q hq
  exact consolidateLinear_foldl_eff (P := fun e => e > s - la - ra) _ []
    (fun p hp => absurd hp (List.not_mem_nil p))
    (linearGroups_unplaced_rejected (s - la - ra) s goal rng
      (groupByKey (fun p => p.rawMaterial) parts) ([], [], 0, 1)
      (fun p hp => absurd hp (List.not_mem_nil p)))
    q hq

/-- C10: given positive effective lengths, the 1D packer is total on
the model and never reaches the empty-best-bar branch.  First conjunct:
on any non-empty pool that survived immediate rejection (every
effective length at most the usable length), the per-bar selection is
non-empty and removing its instances strictly shrinks the pool — this
is the progress property that bounds the loop by the pool size and
makes the model total.  Second conjunct: consequently every part in the
consolidated unplaced list of `performLinearNesting` was immediately
rejected (its effective length exceeds the usable length), i.e. the
empty-best-bar branch contributed nothing. -/
theorem performLinearNesting_total (s : ℚ) (parts : List LinearPart)
    (goal : OptimizationGoal) (la ra : ℚ) (rng : RandSrc)
    (hpos : ∀ p ∈ parts, 0 < p.effectiveLength) :
    (∀ (pool : List CutPart) (ctr : Nat), pool ≠ [] →
      (∀ c ∈ pool, c.effectiveLength ≤ s - la - ra) →
      (selectBestCutsForBar (s - la - ra) goal pool rng ctr).1.1 ≠ [] ∧
        (pool.filter fun p => !(decide (p.instanceId ∈
          ((selectBestCutsForBar (s - la - ra) goal pool rng ctr).1.1.map
            fun c => c.instanceId)))).length < pool.length) ∧
    (∀ q ∈ (performLinearNesting s parts goal la ra rng).unplacedParts,
      q.effectiveLength > s - la - ra) := by
  constructor
  · intro pool ctr hne hall
    refine ⟨selectBestCutsForBar_ne_nil (s - la - ra) goal pool rng ctr hne hall, ?_⟩
    exact filter_removed_length_lt pool _
      (selectBestCutsForBar_ne_nil (s - la - ra) goal pool rng ctr hne hall)
      (selectBestCutsForBar_subset (s - la - ra) goal pool rng ctr)
  · intro q hq
    exact performLinearNesting_unplaced_rejected s parts goal la ra rng q hq

/-- Witness for C10: a concrete input with a positive, placeable part;
the theorem instantiated there yields both conjuncts. -/
theorem performLinearNesting_total_witness :
    (∀ p ∈ [mkLinearPart 1 5 1], 0 < p.effectiveLength) ∧
    ((∀ (pool : List CutPart) (ctr : Nat), pool ≠ [] →
      (∀ c ∈ pool, c.effectiveLength ≤ 10 - 0 - 0) →
      (selectBestCutsForBar (10 - 0 - 0) OptimizationGoal.PRIORITIZE_SPEED pool rngZero
        ctr).1.1 ≠ [] ∧
        (pool.filter fun p => !(decide (p.instanceId ∈
          (((selectBestCutsForBar (10 - 0 - 0) OptimizationGoal.PRIORITIZE_SPEED pool rngZero
            ctr).1.1.map fun c => c.instanceId))))).length < pool.length) ∧
    (∀ q ∈ (performLinearNesting 10 [mkLinearPart 1 5 1] OptimizationGoal.PRIORITIZE_SPEED 0 0
        rngZero).unplacedParts,
      q.effectiveLength > 10 - 0 - 0)) :=
  ⟨by with_unfolding_all decide,
    performLinearNesting_total 10 [mkLinearPart 1 5 1] OptimizationGoal.PRIORITIZE_SPEED 0 0
      rngZero (by with_unfolding_all decide)⟩

/-! ## Lemmas for the immediate-rejection claim -/

theorem linearGroups_cuts_le (u s : ℚ) (goal : OptimizationGoal) (rng : RandSrc) :
    ∀ (groups : List (List Char × List LinearPart))
      (acc : List StockLayout × List LinearPart × Nat × Nat),
      (∀ L ∈ acc.1, ∀ c ∈ L.cuts, c.effectiveLength ≤ u) →
      ∀ L ∈ (groups.foldl (linearGroupStep u s goal rng) acc).1, ∀ c ∈ L.cuts,
        c.effectiveLength ≤ u := by
  intro groups
  induction groups with
  | nil => intro acc h; exact h
  | cons g gs ih =>
    intro acc h
    rw [List.foldl_cons]
    apply ih
    unfold linearGroupStep
    intro L hL
    rcases List.mem_append.mp hL with h1 | h1
    · exact h L h1
    · exact packBars_cuts_le u s goal g.1 g.2 rng _ _ (rejectAndExpand_snd_le u g.2) _ _ L h1

theorem performLinearNesting_cuts_le (s : ℚ) (parts : List LinearPart)
    (goal : OptimizationGoal) (la ra : ℚ) (rng : RandSrc) :
    ∀ L ∈ (performLinearNesting s parts goal la ra rng).layouts, ∀ c ∈ L.cuts,
      c.effectiveLength ≤ s - la - ra := by
  intro L hL
  obtain ⟨L0, hL0, rfl⟩ := List.mem_map.mp hL
  intro c hc
  exact linearGroups_cuts_le (s - la - ra) s goal rng
    (groupByKey (fun p => p.rawMaterial) parts) ([], [], 0, 1)
    (fun _ h => absurd h (List.not_mem_nil _)) L0 hL0 c hc

theorem sumQtyById_append (i : ℚ) (a b : List LinearPart) :
    sumQtyById i (a ++ b) = sumQtyById i a + sumQtyById i b := by
  unfold sumQtyById
  rw [List.map_append, List.sum_append]

theorem sumQtyById_bump (i pid : ℚ) (n : Nat) :
    ∀ (l : List LinearPart), (∃ x ∈ l, x.id = pid) →
      sumQtyById i (bumpLinearQuantity pid n l) =
        sumQtyById i l + (if pid = i then n else 0) := by
  intro l
  induction l with
  | nil => rintro ⟨x, hx, _⟩; exact absurd hx (List.not_mem_nil x)
  | cons p rest ih =>
    rintro ⟨x, hx, hxid⟩
    unfold bumpLinearQuantity
    by_cases hid : p.id = pid
    · rw [if_pos hid]
      unfold sumQtyById
      simp only [List.map_cons, List.sum_cons]
      by_cases hpi : p.id = i
      · rw [if_pos (show ({ p with quantity := p.quantity + n } : LinearPart).id = i from hpi),
          if_pos hpi, if_pos (hid ▸ hpi)]
        omega
      · rw [if_neg (show ¬ ({ p with quantity := p.quantity + n } : LinearPart).id = i from hpi),
          if_neg hpi, if_neg (hid ▸ hpi)]
        omega
    · rw [if_neg hid]
      have hex : ∃ y ∈ rest, y.id = pid := by
        rcases List.mem_cons.mp hx with h1 | h1
        · exact absurd (h1 ▸ hxid) hid
        · exact ⟨x, h1, hxid⟩
      unfold sumQtyById
      simp only [List.map_cons, List.sum_cons]
      have := ih hex
      unfold sumQtyById at this
      omega

theorem sumQtyById_consolidate_foldl (i : ℚ) :
    ∀ (l acc : List LinearPart),
      sumQtyById i (l.foldl consolidateLinearStep acc) = sumQtyById i acc + sumQtyById i l := by
  intro l
  induction l with
  | nil => intro acc; simp [sumQtyById]
  | cons p rest ih =>
    intro acc
    rw [List.foldl_cons, ih]
    have hstep : sumQtyById i (consolidateLinearStep acc p) =
        sumQtyById i acc + (if p.id = i then p.quantity else 0) := by
      unfold consolidateLinearStep
      by_cases hany : (acc.any fun q => decide (q.id = p.id)) = true
      · rw [if_pos hany]
        obtain ⟨x, hx, hdec⟩ := List.any_eq_true.mp hany
        have hxid : x.id = p.id := by simpa using hdec
        rw [sumQtyById_bump i p.id p.quantity acc ⟨x, hx, hxid⟩]
      · rw [if_neg hany, sumQtyById_append]
        unfold sumQtyById
        simp
    rw [hstep]
    unfold sumQtyById
    simp only [List.map_cons, List.sum_cons]
    omega

theorem sumQtyById_consolidate (i : ℚ) (l : List LinearPart) :
    sumQtyById i (consolidateLinearUnplaced l) = sumQtyById i l := by
  unfold consolidateLinearUnplaced
  rw [sumQtyById_consolidate_foldl]
  simp [sumQtyById]

theorem sumQtyById_filter_eq_weight (i u : ℚ) :
    ∀ (l : List LinearPart),
      sumQtyById i (l.filter fun p => decide (p.effectiveLength > u)) =
        (l.map fun p =>
          if p.effectiveLength > u then (if p.id = i then p.quantity else 0) else 0).sum := by
  intro l
  induction l with
  | nil => rfl
  | cons p rest ih =>
    by_cases hp : p.effectiveLength > u
    · rw [List.filter_cons_of_pos (by simpa using hp)]
      unfold sumQtyById
      simp only [List.map_cons, List.sum_cons]
      rw [if_pos hp]
      unfold sumQtyById at ih
      omega
    · rw [List.filter_cons_of_neg (by simpa using hp)]
      simp only [List.map_cons, List.sum_cons]
      rw [if_neg hp, ih]
      omega

theorem addToGroups_weight {α : Type} (w : α → Nat) (key : List Char) (p : α) :
    ∀ (acc : List (List Char × List α)),
      ((addToGroups key p acc).map fun g => (g.2.map w).sum).sum =
        ((acc.map fun g => (g.2.map w).sum)).sum + w p := by
  intro acc
  induction acc with
  | nil => simp [addToGroups]
  | cons e rest ih =>
    obtain ⟨k, ps⟩ := e
    unfold addToGroups
    by_cases hk : k = key
    · rw [if_pos hk]
      simp only [List.map_cons, List.sum_cons, List.map_append, List.sum_append,
        List.map_cons, List.sum_cons, List.map_nil, List.sum_nil]
      omega
    · rw [if_neg hk]
      simp only [List.map_cons, List.sum_cons]
      rw [ih]
      omega

theorem groupByKey_weight {α : Type} (w : α → Nat) (kf : α → List Char) :
    ∀ (l : List α) (acc : List (List Char × List α)),
      (((l.foldl (fun a p => addToGroups (kf p) p a) acc).map fun g => (g.2.map w).sum)).sum =
        ((acc.map fun g => (g.2.map w).sum)).sum + (l.map w).sum := by
  intro l
  induction l with
  | nil => intro acc; simp
  | cons p rest ih =>
    intro acc
    rw [List.foldl_cons, ih, addToGroups_weight]
    simp only [List.map_cons, List.sum_cons]
    omega

theorem groupByKey_sumQty (i u : ℚ) (parts : List LinearPart) :
    ((groupByKey (fun p => p.rawMaterial) parts).map fun g =>
      sumQtyById i (g.2.filter fun p => decide (p.effectiveLength > u))).sum =
      sumQtyById i (parts.filter fun p => decide (p.effectiveLength > u)) := by
  rw [List.map_congr_left fun g _ => sumQtyById_filter_eq_weight i u g.2,
    sumQtyById_filter_eq_weight]
  unfold groupByKey
  rw [groupByKey_weight
    (fun p => if p.effectiveLength > u then (if p.id = i then p.quantity else 0) else 0)
    (fun p => p.rawMaterial) parts []]
  simp

theorem linearGroups_unplaced_sum (u s : ℚ) (goal : OptimizationGoal) (rng : RandSrc)
    (i : ℚ) :
    ∀ (groups : List (List Char × List LinearPart))
      (acc : List StockLayout × List LinearPart × Nat × Nat),
      sumQtyById i (groups.foldl (linearGroupStep u s goal rng) acc).2.1 =
        sumQtyById i acc.2.1 +
          (groups.map fun g =>
            sumQtyById i (g.2.filter fun p => decide (p.effectiveLength > u))).sum := by
  intro groups
  induction groups with
  | nil => intro acc; simp
  | cons g gs ih =>
    intro acc
    rw [List.foldl_cons, ih]
    have hstep : (linearGroupStep u s goal rng acc g).2.1 =
        acc.2.1 ++ ((g.2.filter fun p => decide (p.effectiveLength > u)) ++ []) := by
      show acc.2.1 ++ ((rejectAndExpand u g.2).1 ++
        (packBars u s goal g.1 g.2 rng (rejectAndExpand u g.2).2.length
          (rejectAndExpand u g.2).2 acc.2.2.1 acc.2.2.2).unplaced) = _
      rw [rejectAndExpand_fst,
        packBars_unplaced_nil u s goal g.1 g.2 rng _ _ (rejectAndExpand_snd_le u g.2)]
    rw [hstep, sumQtyById_append, sumQtyById_append]
    simp only [List.map_cons, List.sum_cons, sumQtyById]
    simp
    omega

/-- C6: every linear part whose effective length exceeds the usable
stock length is reported unplaced with its full requested quantity and
contributes to no stock layout, and no exception is raised (the model
is a total function).  First conjunct: for every id, the consolidated
unplaced quantity equals the total requested quantity of the
immediately-rejected rows with that id (and rejected rows are the only
unplaced source, by the unreachability of the empty-bar branch).
Second conjunct: every committed cut fits in the usable length, so no
rejected part contributes to a layout.  Last conjuncts: the concrete
Scenario D — stock 1000, zero allowances, one part of length 1200 and
quantity one — yields zero layouts and exactly that part unplaced. -/
theorem performLinearNesting_immediate_rejection (s : ℚ) (parts : List LinearPart)
    (goal : OptimizationGoal) (la ra : ℚ) (rng : RandSrc) :
    (∀ i : ℚ, sumQtyById i (performLinearNesting s parts goal la ra rng).unplacedParts =
      sumQtyById i (parts.filter fun p => decide (p.effectiveLength > s - la - ra))) ∧
    (∀ L ∈ (performLinearNesting s parts goal la ra rng).layouts, ∀ c ∈ L.cuts,
      c.effectiveLength ≤ s - la - ra) ∧
    (performLinearNesting 1000 [mkLinearPart 1 1200 1] OptimizationGoal.PRIORITIZE_SPEED 0 0
      rngZero).layouts = [] ∧
    (performLinearNesting 1000 [mkLinearPart 1 1200 1] OptimizationGoal.PRIORITIZE_SPEED 0 0
      rngZero).unplacedParts = [mkLinearPart 1 1200 1] := by
  refine ⟨?_, performLinearNesting_cuts_le s parts goal la ra rng,
    by with_unfolding_all decide, by with_unfolding_all decide⟩
  intro i
  show sumQtyById i (consolidateLinearUnplaced
    (((groupByKey (fun p => p.rawMaterial) parts).foldl
      (linearGroupStep (s - la - ra) s goal rng) ([], [], 0, 1)).2.1)) = _
  rw [sumQtyById_consolidate, linearGroups_unplaced_sum, groupByKey_sumQty]
  simp [sumQtyById]

/-- Witness for C6: the Scenario D input has a non-empty unplaced list,
and the theorem instantiated there gives all four conjuncts. -/
theorem performLinearNesting_immediate_rejection_witness :
    (performLinearNesting 1000 [mkLinearPart 1 1200 1] OptimizationGoal.PRIORITIZE_SPEED 0 0
      rngZero).unplacedParts ≠ [] ∧
    ((∀ i : ℚ, sumQtyById i (performLinearNesting 1000 [mkLinearPart 1 1200 1]
        OptimizationGoal.PRIORITIZE_SPEED 0 0 rngZero).unplacedParts =
      sumQtyById i ([mkLinearPart 1 1200 1].filter
        fun p => decide (p.effectiveLength > 1000 - 0 - 0))) ∧
    (∀ L ∈ (performLinearNesting 1000 [mkLinearPart 1 1200 1]
        OptimizationGoal.PRIORITIZE_SPEED 0 0 rngZero).layouts, ∀ c ∈ L.cuts,
      c.effectiveLength ≤ 1000 - 0 - 0) ∧
    (performLinearNesting 1000 [mkLinearPart 1 1200 1] OptimizationGoal.PRIORITIZE_SPEED 0 0
      rngZero).layouts = [] ∧
    (performLinearNesting 1000 [mkLinearPart 1 1200 1] OptimizationGoal.PRIORITIZE_SPEED 0 0
      rngZero).unplacedParts = [mkLinearPart 1 1200 1]) :=
  ⟨by with_unfolding_all decide,
    performLinearNesting_immediate_rejection 1000 [mkLinearPart 1 1200 1]
      OptimizationGoal.PRIORITIZE_SPEED 0 0 rngZero⟩

/-! ## Monotonic improvement of the randomized search -/

theorem runTrials_min (u : ℚ) (rng : RandSrc) :
    ∀ (n : Nat) (temp : List CutPart) (ctr : Nat) (best : List CutPart × ℚ),
      ((runTrials u rng n temp ctr best).1 = best ∨
        (runTrials u rng n temp ctr best).1.2 < best.2) ∧
      (runTrials u rng n temp ctr best).1.2 ≤ best.2 := by
  intro n
  induction n with
  | zero => intro temp ctr best; exact ⟨Or.inl rfl, le_refl _⟩
  | succ m ih =>
    intro temp ctr best
    rw [runTrials_succ]
    by_cases hlt : u - (greedyAccum u (shuffleList rng temp ctr).1).2 < best.2
    · rw [if_pos hlt]
      obtain ⟨h1, h2⟩ := ih (shuffleList rng temp ctr).1 (shuffleList rng temp ctr).2
        ((greedyAccum u (shuffleList rng temp ctr).1).1,
          u - (greedyAccum u (shuffleList rng temp ctr).1).2)
      constructor
      · refine Or.inr ?_
        rcases h1 with h1 | h1
        · rw [h1]; exact hlt
        · exact lt_trans h1 hlt
      · exact le_trans h2 (le_of_lt hlt)
    · rw [if_neg hlt]
      exact ih _ _ best

theorem selectBestCutsForBar_min_waste (u : ℚ) (pool : List CutPart) (rng : RandSrc)
    (ctr : Nat) :
    (selectBestCutsForBar u OptimizationGoal.MINIMIZE_WASTE pool rng ctr).1.2 ≤
        ffdWaste u pool ∧
      ((selectBestCutsForBar u OptimizationGoal.MINIMIZE_WASTE pool rng ctr).1.1 =
          (ffdBaseline u pool).1 ∨
        (selectBestCutsForBar u OptimizationGoal.MINIMIZE_WASTE pool rng ctr).1.2 <
          ffdWaste u pool) := by
  rw [selectBestCutsForBar_eq]
  split
  · obtain ⟨h1, h2⟩ := runTrials_min u rng SHUFFLE_ITERATIONS pool ctr
      ((greedyAccum u (sortEffDesc pool)).1, u - (greedyAccum u (sortEffDesc pool)).2)
    constructor
    · exact h2
    · rcases h1 with h1 | h1
      · refine Or.inl ?_
        rw [h1]
        rfl
      · exact Or.inr h1
  · exact ⟨le_refl _, Or.inl rfl⟩

theorem linearGroups_layout_source (u s : ℚ) (goal : OptimizationGoal) (rng : RandSrc) :
    ∀ (groups : List (List Char × List LinearPart))
      (acc : List StockLayout × List LinearPart × Nat × Nat),
      (∀ L ∈ acc.1, ∃ pool ctr, L.cuts = (selectBestCutsForBar u goal pool rng ctr).1.1) →
      ∀ L ∈ (groups.foldl (linearGroupStep u s goal rng) acc).1,
        ∃ pool ctr, L.cuts = (selectBestCutsForBar u goal pool rng ctr).1.1 := by
  intro groups
  induction groups with
  | nil => intro acc h; exact h
  | cons g gs ih =>
    intro acc h
    rw [List.foldl_cons]
    apply ih
    unfold linearGroupStep
    intro L hL
    rcases List.mem_append.mp hL with h1 | h1
    · exact h L h1
    · obtain ⟨pool2, ctr2, hc, _⟩ := packBars_layout_cuts_source u s goal g.1 g.2 rng _ _ _ _
        L h1
      exact ⟨pool2, ctr2, hc⟩

/-- C3: in waste-minimization mode, the cut set committed for every bar
comes from the per-bar selection on the remaining pool of that bar, and
its waste is at most the waste of the first-fit-decreasing baseline on
that same pool; moreover, for every pool and draw sequence, the
selection's waste is at most the baseline waste, and it equals the
baseline cut set unless it is a strict improvement (the incumbent is
replaced only on strictly smaller waste, so the baseline — the earliest
candidate — wins ties with the trials). -/
theorem performLinearNesting_min_waste (s : ℚ) (parts : List LinearPart) (la ra : ℚ)
    (rng : RandSrc) :
    (∀ L ∈ (performLinearNesting s parts OptimizationGoal.MINIMIZE_WASTE la ra rng).layouts,
      ∃ pool ctr, L.cuts =
          (selectBestCutsForBar (s - la - ra) OptimizationGoal.MINIMIZE_WASTE pool rng
            ctr).1.1 ∧
        (s - la - ra) - sumEff L.cuts ≤ ffdWaste (s - la - ra) pool) ∧
    (∀ (pool : List CutPart) (ctr : Nat),
      (selectBestCutsForBar (s - la - ra) OptimizationGoal.MINIMIZE_WASTE pool rng ctr).1.2 ≤
        ffdWaste (s - la - ra) pool ∧
      ((selectBestCutsForBar (s - la - ra) OptimizationGoal.MINIMIZE_WASTE pool rng
          ctr).1.1 = (ffdBaseline (s - la - ra) pool).1 ∨
        (selectBestCutsForBar (s - la - ra) OptimizationGoal.MINIMIZE_WASTE pool rng
          ctr).1.2 < ffdWaste (s - la - ra) pool)) := by
  constructor
  · intro L hL
    obtain ⟨L0, hL0, rfl⟩ := List.mem_map.mp hL
    obtain ⟨pool, ctr, hc⟩ := linearGroups_layout_source (s - la - ra) s
      OptimizationGoal.MINIMIZE_WASTE rng (groupByKey (fun p => p.rawMaterial) parts)
      ([], [], 0, 1) (fun _ h => absurd h (List.not_mem_nil _)) L0 hL0
    refine ⟨pool, ctr, hc, ?_⟩
    obtain ⟨hok, _⟩ := selectBestCutsForBar_ok (s - la - ra)
      OptimizationGoal.MINIMIZE_WASTE pool rng ctr
    obtain ⟨hle, _⟩ := selectBestCutsForBar_min_waste (s - la - ra) pool rng ctr
    show (s - la - ra) - sumEff L0.cuts ≤ ffdWaste (s - la - ra) pool
    rw [hc, ← hok]
    exact hle
  · intro pool ctr
    exact selectBestCutsForBar_min_waste (s - la - ra) pool rng ctr

/-- Witness for C3: a concrete waste-minimization run with a non-empty
layout list; the theorem instantiated there gives both conjuncts. -/
theorem performLinearNesting_min_waste_witness :
    (performLinearNesting 10 [mkLinearPart 1 5 1] OptimizationGoal.MINIMIZE_WASTE 0 0
      rngZero).layouts ≠ [] ∧
    ((∀ L ∈ (performLinearNesting 10 [mkLinearPart 1 5 1] OptimizationGoal.MINIMIZE_WASTE 0 0
        rngZero).layouts,
      ∃ pool ctr, L.cuts =
          (selectBestCutsForBar (10 - 0 - 0) OptimizationGoal.MINIMIZE_WASTE pool rngZero
            ctr).1.1 ∧
        (10 - 0 - 0) - sumEff L.cuts ≤ ffdWaste (10 - 0 - 0) pool) ∧
    (∀ (pool : List CutPart) (ctr : Nat),
      (selectBestCutsForBar (10 - 0 - 0) OptimizationGoal.MINIMIZE_WASTE pool rngZero
        ctr).1.2 ≤ ffdWaste (10 - 0 - 0) pool ∧
      ((selectBestCutsForBar (10 - 0 - 0) OptimizationGoal.MINIMIZE_WASTE pool rngZero
          ctr).1.1 = (ffdBaseline (10 - 0 - 0) pool).1 ∨
        (selectBestCutsForBar (10 - 0 - 0) OptimizationGoal.MINIMIZE_WASTE pool rngZero
          ctr).1.2 < ffdWaste (10 - 0 - 0) pool))) :=
  ⟨by with_unfolding_all decide,
    performLinearNesting_min_waste 10 [mkLinearPart 1 5 1] 0 0 rngZero⟩

/-! ## Grade-key parsing lemmas -/

theorem splitOnDash_ne_nil : ∀ (l : List Char), splitOnDash l ≠ [] := by
  intro l
  cases l with
  | nil => simp [splitOnDash]
  | cons c rest =>
    unfold splitOnDash
    cases h : splitOnDash rest with
    | nil => simp
    | cons s ss =>
      by_cases hc : c = '-' <;> simp [hc]

theorem splitOnDash_head : ∀ (l : List Char),
    (splitOnDash l).headD [] = l.takeWhile fun c => !(decide (c = '-')) := by
  intro l
  induction l with
  | nil => rfl
  | cons c rest ih =>
    have hrw : splitOnDash (c :: rest) =
        match splitOnDash rest with
        | [] => [[]]
        | s :: ss => if c = '-' then [] :: s :: ss else (c :: s) :: ss := rfl
    rw [hrw]
    cases h : splitOnDash rest with
    | nil => exact absurd h (splitOnDash_ne_nil rest)
    | cons s ss =>
      show (if c = '-' then [] :: s :: ss else (c :: s) :: ss).headD [] = _
      by_cases hc : c = '-'
      · rw [if_pos hc, List.takeWhile_cons_of_neg (by simp [hc])]
        rfl
      · rw [if_neg hc, List.takeWhile_cons_of_pos (by simp [hc])]
        have hs : s = (splitOnDash rest).headD [] := by rw [h]; rfl
        rw [show (((c :: s) :: ss).headD []) = c :: s from rfl, hs, ih]

theorem takeWhile_append_of_dash : ∀ (g xs : List Char), '-' ∈ g →
    (g ++ xs).takeWhile (fun c => !(decide (c = '-'))) =
      g.takeWhile fun c => !(decide (c = '-')) := by
  intro g
  induction g with
  | nil => intro xs hm; exact absurd hm (List.not_mem_nil _)
  | cons c rest ih =>
    intro xs hm
    by_cases hc : c = '-'
    · rw [List.cons_append, List.takeWhile_cons_of_neg (by simp [hc]),
        List.takeWhile_cons_of_neg (by simp [hc])]
    · have hm2 : '-' ∈ rest := by
        rcases List.mem_cons.mp hm with h1 | h1
        · exact absurd h1.symm hc
        · exact h1
      rw [List.cons_append, List.takeWhile_cons_of_pos (by simp [hc]),
        List.takeWhile_cons_of_pos (by simp [hc]), ih xs hm2]

theorem takeWhile_dash_ne_self : ∀ (g : List Char), '-' ∈ g →
    g.takeWhile (fun c => !(decide (c = '-'))) ≠ g := by
  intro g
  induction g with
  | nil => intro hm; exact absurd hm (List.not_mem_nil _)
  | cons c rest ih =>
    intro hm he
    by_cases hc : c = '-'
    · rw [List.takeWhile_cons_of_neg (by simp [hc])] at he
      exact List.cons_ne_nil c rest he.symm
    · rw [List.takeWhile_cons_of_pos (by simp [hc])] at he
      have hm2 : '-' ∈ rest := by
        rcases List.mem_cons.mp hm with h1 | h1
        · exact absurd h1.symm hc
        · exact h1
      injection he with _ h2
      exact ih hm2 h2

theorem partKey_head_ne_grade (p : Part) (hm : '-' ∈ p.grade) :
    (splitOnDash (partKey p)).headD [] ≠ p.grade := by
  rw [splitOnDash_head]
  show (p.grade ++ '-' :: qRepr p.thickness).takeWhile (fun c => !(decide (c = '-'))) ≠ p.grade
  rw [takeWhile_append_of_dash p.grade ('-' :: qRepr p.thickness) hm]
  exact takeWhile_dash_ne_self p.grade hm

theorem sheetDefsForGroup_grade (sheets : List Sheet) (key : List Char) :
    ∀ s ∈ sheetDefsForGroup sheets key, s.grade = (splitOnDash key).headD [] := by
  intro s hs
  have h := (List.mem_filter.mp hs).2
  have h1 := (Bool.and_eq_true _ _).mp h
  simpa using h1.1

theorem addToGroups_bucket {α : Type} (key : List Char) (kf : α → List Char) (p : α)
    (hkey : kf p = key) :
    ∀ (acc : List (List Char × List α)),
      (∀ g ∈ acc, ∀ x ∈ g.2, kf x = g.1) →
      ∀ g ∈ addToGroups key p acc, ∀ x ∈ g.2, kf x = g.1 := by
  intro acc
  induction acc with
  | nil =>
    intro _ g hg x hx
    have hg2 : g = (key, [p]) := by simpa [addToGroups] using hg
    rw [hg2] at hx ⊢
    have hx2 : x = p := by simpa using hx
    rw [hx2]
    exact hkey
  | cons e rest ih =>
    intro h g hg x hx
    obtain ⟨k, ps⟩ := e
    unfold addToGroups at hg
    by_cases hk : k = key
    · rw [if_pos hk] at hg
      rcases List.mem_cons.mp hg with h1 | h1
      · rw [h1] at hx
        rcases List.mem_append.mp hx with h2 | h2
        · have := h (k, ps) (List.mem_cons_self _ _) x h2
          rw [h1]
          exact this
        · have hx2 : x = p := by simpa using h2
          rw [h1, hx2]
          show kf p = k
          rw [hkey, hk]
      · exact h g (List.mem_cons_of_mem _ h1) x hx
    · rw [if_neg hk] at hg
      rcases List.mem_cons.mp hg with h1 | h1
      · rw [h1] at hx ⊢
        exact h (k, ps) (List.mem_cons_self _ _) x hx
      · exact ih (fun g2 hg2 => h g2 (List.mem_cons_of_mem _ hg2)) g h1 x hx

theorem groupByKey_buckets {α : Type} (kf : α → List Char) (l : List α) :
    ∀ g ∈ groupByKey kf l, ∀ x ∈ g.2, kf x = g.1 := by
  unfold groupByKey
  suffices h : ∀ (l2 : List α) (acc : List (List Char × List α)),
      (∀ g ∈ acc, ∀ x ∈ g.2, kf x = g.1) →
      ∀ g ∈ l2.foldl (fun a p => addToGroups (kf p) p a) acc, ∀ x ∈ g.2, kf x = g.1 by
    exact h l [] (fun g hg => absurd hg (List.not_mem_nil g))
  intro l2
  induction l2 with
  | nil => intro acc hacc; exact hacc
  | cons p rest ih =>
    intro acc hacc
    rw [List.foldl_cons]
    exact ih _ (addToGroups_bucket (kf p) kf p rfl acc hacc)

theorem expandPartInstances_grade (l : List Part) :
    ∀ q ∈ expandPartInstances l, ∃ p ∈ l, q.grade = p.grade := by
  intro q hq
  unfold expandPartInstances at hq
  obtain ⟨inner, hinner, hq2⟩ := List.mem_flatten.mp hq
  obtain ⟨p, hp, rfl⟩ := List.mem_map.mp hinner
  obtain ⟨i, _, rfl⟩ := List.mem_map.mp hq2
  exact ⟨p, hp, rfl⟩

theorem placePass_foldl_grade {P : List Char → Prop} (sheet : Sheet) (g1 g2 : ℚ)
    (rot : RotationOption) :
    ∀ (pool : List Part) (acc : List PlacedPart × List Part),
      (∀ pp ∈ acc.1, P pp.grade) → (∀ p ∈ acc.2, P p.grade) → (∀ p ∈ pool, P p.grade) →
      (∀ pp ∈ (pool.foldl (placeStep sheet g1 g2 rot) acc).1, P pp.grade) ∧
        (∀ p ∈ (pool.foldl (placeStep sheet g1 g2 rot) acc).2, P p.grade) := by
  intro pool
  induction pool with
  | nil => intro acc h1 h2 _; exact ⟨h1, h2⟩
  | cons part rest ih =>
    intro acc h1 h2 h3
    rw [List.foldl_cons]
    have hpart := h3 part (List.mem_cons_self _ _)
    have h3r : ∀ p ∈ rest, P p.grade := fun p hp => h3 p (List.mem_cons_of_mem _ hp)
    refine ih _ ?_ ?_ h3r
    · unfold placeStep
      cases findBestPosition part sheet acc.1 g1 g2 rot with
      | none => exact h1
      | some pos =>
        intro pp hpp
        rcases List.mem_append.mp hpp with hp1 | hp1
        · exact h1 pp hp1
        · have : pp = { part with x := pos.x, y := pos.y, rotated := pos.rotated } := by
            simpa using hp1
          rw [this]
          exact hpart
    · unfold placeStep
      cases findBestPosition part sheet acc.1 g1 g2 rot with
      | none =>
        intro p hp
        rcases List.mem_append.mp hp with hp1 | hp1
        · exact h2 p hp1
        · have : p = part := by simpa using hp1
          rw [this]
          exact hpart
      | some pos => exact h2

theorem sortByAreaDesc_mem (l : List Part) (p : Part) :
    p ∈ sortByAreaDesc l ↔ p ∈ l :=
  (List.perm_insertionSort _ l).mem_iff

theorem fillWithDef_grade {P : List Char → Prop} (sheetDef : Sheet) (g1 g2 : ℚ)
    (rot : RotationOption) (mat : Material) :
    ∀ (fuel : Nat) (pool : List Part) (cnt : Nat), (∀ p ∈ pool, P p.grade) →
      (∀ L ∈ (fillWithDef sheetDef g1 g2 rot mat fuel pool cnt).1,
        L.sheet = sheetDef ∧ ∀ pp ∈ L.placedParts, P pp.grade) ∧
      (∀ p ∈ (fillWithDef sheetDef g1 g2 rot mat fuel pool cnt).2, P p.grade) := by
  intro fuel
  induction fuel with
  | zero =>
    intro pool cnt hpool
    exact ⟨fun L hL => absurd hL (List.not_mem_nil L), hpool⟩
  | succ n ih =>
    intro pool cnt hpool
    unfold fillWithDef
    by_cases hp : pool = []
    · rw [if_pos hp]
      exact ⟨fun L hL => absurd hL (List.not_mem_nil L), hpool⟩
    · rw [if_neg hp]
      obtain ⟨hplaced, hrem⟩ := placePass_foldl_grade (P := P) sheetDef g1 g2 rot pool ([], [])
        (fun x hx => absurd hx (List.not_mem_nil x))
        (fun x hx => absurd hx (List.not_mem_nil x)) hpool
      by_cases hpr : (placePass pool sheetDef g1 g2 rot).1 = []
      · rw [if_pos hpr]
        exact ⟨fun L hL => absurd hL (List.not_mem_nil L), hpool⟩
      · rw [if_neg hpr]
        have hsorted : ∀ p ∈ sortByAreaDesc (placePass pool sheetDef g1 g2 rot).2, P p.grade :=
          fun p hp2 => hrem p ((sortByAreaDesc_mem _ p).mp hp2)
        obtain ⟨ih1, ih2⟩ := ih (sortByAreaDesc (placePass pool sheetDef g1 g2 rot).2) (cnt + 1)
          hsorted
        constructor
        · intro L hL
          rcases List.mem_cons.mp hL with h1 | h1
          · rw [h1]
            exact ⟨rfl, fun pp hpp2 => hplaced pp hpp2⟩
          · exact ih1 L h1
        · exact ih2

theorem fillDefs_grade {P : List Char → Prop} (g1 g2 : ℚ) (rot : RotationOption)
    (mat : Material) :
    ∀ (defs : List Sheet) (pool : List Part) (cnt : Nat), (∀ p ∈ pool, P p.grade) →
      ∀ L ∈ (fillDefs g1 g2 rot mat defs pool cnt).1,
        L.sheet ∈ defs ∧ ∀ pp ∈ L.placedParts, P pp.grade := by
  intro defs
  induction defs with
  | nil => intro pool cnt _ L hL; exact absurd hL (List.not_mem_nil L)
  | cons d ds ih =>
    intro pool cnt hpool L hL
    unfold fillDefs at hL
    by_cases hp : pool = []
    · rw [if_pos hp] at hL; exact absurd hL (List.not_mem_nil L)
    · rw [if_neg hp] at hL
      obtain ⟨h1, h2⟩ := fillWithDef_grade (P := P) d g1 g2 rot mat d.quantity pool cnt hpool
      rcases List.mem_append.mp hL with hL1 | hL1
      · obtain ⟨hs, hg⟩ := h1 L hL1
        exact ⟨by rw [hs]; exact List.mem_cons_self _ _, hg⟩
      · obtain ⟨hs, hg⟩ := ih _ _ h2 L hL1
        exact ⟨List.mem_cons_of_mem _ hs, hg⟩

theorem sheetGroups_foldl_hyphen (sheets : List Sheet) (g1 g2 : ℚ) (rot : RotationOption)
    (mat : Material) :
    ∀ (groups : List (List Char × List Part)) (acc : List SheetLayout × List Part),
      (∀ g ∈ groups, ∀ x ∈ g.2, partKey x = g.1) →
      (∀ L ∈ acc.1, ∀ pp ∈ L.placedParts, '-' ∈ pp.grade → L.sheet.grade ≠ pp.grade) →
      ∀ L ∈ (groups.foldl (sheetGroupStep sheets g1 g2 rot mat) acc).1,
        ∀ pp ∈ L.placedParts, '-' ∈ pp.grade → L.sheet.grade ≠ pp.grade := by
  intro groups
  induction groups with
  | nil => intro acc _ hacc; exact hacc
  | cons g gs ih =>
    intro acc hkeys hacc
    rw [List.foldl_cons]
    refine ih _ (fun g2 hg2 => hkeys g2 (List.mem_cons_of_mem _ hg2)) ?_
    unfold sheetGroupStep
    by_cases hd : sheetDefsForGroup sheets g.1 = []
    · rw [if_pos hd]
      exact hacc
    · rw [if_neg hd]
      intro L hL
      rcases List.mem_append.mp hL with hL1 | hL1
      · exact hacc L hL1
      · have hpool : ∀ p ∈ sortByAreaDesc (expandPartInstances g.2),
            ∃ p0 ∈ g.2, p.grade = p0.grade := fun p hp =>
          expandPartInstances_grade g.2 p ((sortByAreaDesc_mem _ p).mp hp)
        obtain ⟨hs, hg⟩ := fillDefs_grade (P := fun gr => ∃ p0 ∈ g.2, gr = p0.grade)
          g1 g2 rot mat _ _ _ hpool L hL1
        intro pp hpp hdash
        obtain ⟨p0, hp0, hgr⟩ := hg pp hpp
        have hkey : partKey p0 = g.1 := hkeys g (List.mem_cons_self _ _) p0 hp0
        have hgrade : L.sheet.grade = (splitOnDash g.1).headD [] :=
          sheetDefsForGroup_grade sheets g.1 L.sheet hs
        rw [hgrade, hgr, ← hkey]
        exact partKey_head_ne_grade p0 (hgr ▸ hdash)

/-- C9: a part whose grade contains a hyphen is never placed on a sheet
definition whose grade equals the part's own grade: the group key
grade-thickness is split on hyphens, so the capacity lookup uses the
grade truncated at its first hyphen, which is a proper prefix of (hence
different from) the hyphenated grade. -/
theorem performSheetNesting_hyphen_grade (sheets : List Sheet) (parts : List Part)
    (g1 g2 : ℚ) (rot : RotationOption) (mat : Material) :
    ∀ L ∈ (performSheetNesting sheets parts g1 g2 rot mat).layouts,
      ∀ pp ∈ L.placedParts, '-' ∈ pp.grade → L.sheet.grade ≠ pp.grade := by
  intro L hL
  exact sheetGroups_foldl_hyphen sheets g1 g2 rot mat (groupByKey partKey parts) ([], [])
    (groupByKey_buckets partKey parts) (fun _ h => absurd h (List.not_mem_nil _)) L hL

/-- Witness for C9: the part of grade A-5 and thickness 3 is actually
placed — its group key A-5-3 parses as grade A with thickness 5, which
the sheet of grade A and thickness 5 matches — and the theorem
instantiated there shows the hosting sheet's grade differs from the
part's hyphenated grade. -/
theorem performSheetNesting_hyphen_grade_witness :
    (performSheetNesting [sheetA5] [partHyphen] 0 0 RotationOption.NONE matMS).layouts.map
        (fun l => l.placedParts.map fun pp => pp.rotated) = [[false]] ∧
    ∀ L ∈ (performSheetNesting [sheetA5] [partHyphen] 0 0 RotationOption.NONE matMS).layouts,
      ∀ pp ∈ L.placedParts, '-' ∈ pp.grade → L.sheet.grade ≠ pp.grade :=
  ⟨by with_unfolding_all decide,
    performSheetNesting_hyphen_grade [sheetA5] [partHyphen] 0 0 RotationOption.NONE matMS⟩

end CheckApp
